import Mathlib

/-!
Verification of the code-quality-agent pipeline.

Shallow embedding of the Python modules `agent/fs_ro.py`,
`agent/header_rules.py`, `agent/docgen.py` and `agent/graph_agent.py`.
Paths are modelled as an absolute-flag plus a list of segments; the
operating-system canonicalisation performed by `Path.resolve(strict=False)`
(elimination of `.`/`..` segments and symlinks) is an environment
capability and is therefore a field `osResolve` of the sandbox structure;
a concrete dot-segment normaliser `normalizeAbs` instantiates it in
witnesses.  File contents are modelled as the decoded text together with
the on-disk byte size (`read_text` decodes with `errors="replace"`, which
is total, so keeping the decoded text loses nothing).
-/

set_option maxRecDepth 20000

/-- Model of a `pathlib` path: an absolute-path flag plus the name segments. -/
structure PathM where
  absolute : Bool
  segments : List String
deriving DecidableEq

/-- `root_dir / path` for a relative `path` (pathlib `/` appends segments and
does not normalise dot segments). -/
def PathM.join (p q : PathM) : PathM :=
  ⟨p.absolute, p.segments ++ q.segments⟩

/-- `Path.is_relative_to`: same absolute flag and the candidate root's
segments are a (segment-wise) leading run of the path's segments. -/
def isRelativeTo (p root : PathM) : Bool :=
  p.absolute == root.absolute && root.segments.isPrefixOf p.segments

/-- `Path.relative_to(root)`: drop the root's segments. Only used after
`isRelativeTo` has been checked. -/
def PathM.relativeTo (p root : PathM) : PathM :=
  ⟨false, p.segments.drop root.segments.length⟩

/-- `str.join` of Python: interleave a separator between the pieces. -/
def joinWith (sep : String) : List String → String
  | [] => ""
  | [x] => x
  | x :: y :: xs => x ++ sep ++ joinWith sep (y :: xs)

/-- POSIX rendering of a path, for the string-level comparisons Python
performs (`sorted`, and the syntactic-prefix discussion of claim C1). -/
def pathStr (p : PathM) : String :=
  let body := joinWith "/" p.segments
  if p.absolute then "/" ++ body
  else if p.segments.isEmpty then "." else body

/-- Dot-segment elimination over the segments of an absolute path: this is
what `Path.resolve(strict=False)` computes on a filesystem without
symlinks (`..` pops the last segment, `.` and empty segments vanish). -/
def normSegs (acc : List String) : List String → List String
  | [] => acc
  | s :: rest =>
    if s = "." ∨ s = "" then normSegs acc rest
    else if s = ".." then normSegs acc.dropLast rest
    else normSegs (acc ++ [s]) rest

/-- Concrete symlink-free instantiation of the OS path canonicalisation. -/
def normalizeAbs (p : PathM) : PathM :=
  ⟨true, normSegs [] p.segments⟩

/-- Errors of `fs_ro.py`: `SandboxViolation`, `FileNotFoundError` and the
`ValueError` raised on oversized files. -/
inductive FSError where
  | sandboxViolation (p : PathM)
  | notFound (p : PathM)
  | sizeLimitExceeded (size : Nat) (p : PathM)
deriving DecidableEq

/-- `ReadOnlySandboxFS`: the resolved root directory, plus the environment's
canonical path resolution (`expanduser().resolve(strict=False)`). -/
structure ReadOnlySandboxFS where
  root_dir : PathM
  osResolve : PathM → PathM

/-- The `candidate` computed on line 33 of `fs_ro.py`: join relative paths
to root, keep absolute paths as given. -/
def joinCandidate (fs : ReadOnlySandboxFS) (path : PathM) : PathM :=
  if path.absolute then path else fs.root_dir.join path

/-- `ReadOnlySandboxFS._resolve_under_root`: canonically resolve the
candidate, then test containment on the resolved path. -/
def resolveUnderRoot (fs : ReadOnlySandboxFS) (path : PathM) :
    Except FSError PathM :=
  let resolved := fs.osResolve (joinCandidate fs path)
  if isRelativeTo resolved fs.root_dir then Except.ok resolved
  else Except.error (FSError.sandboxViolation resolved)

/-- One file of the modelled filesystem: on-disk byte size and the text the
bytes decode to (UTF-8 with replacement characters, which never fails). -/
structure FileEntry where
  size : Nat
  text : String
deriving DecidableEq

/-- The file store: canonical absolute path to entry. -/
def FileSys : Type := List (PathM × FileEntry)

/-- Look a canonical path up in the file store. -/
def lookupFile (fsys : FileSys) (p : PathM) : Option FileEntry :=
  match fsys.find? (fun e => e.1 = p) with
  | some e => some e.2
  | none => none

/-- `ReadOnlySandboxFS.read_text`: resolve under root, fail on missing
files, fail on files larger than `max_bytes`, otherwise return the
(replacement-decoded) text. -/
def read_text (fs : ReadOnlySandboxFS) (fsys : FileSys) (path : PathM)
    (max_bytes : Nat) : Except FSError String := do
  let p ← resolveUnderRoot fs path
  match lookupFile fsys p with
  | none => Except.error (FSError.notFound p)
  | some entry =>
    if entry.size > max_bytes then
      Except.error (FSError.sizeLimitExceeded entry.size p)
    else
      Except.ok entry.text

/-- `ReadOnlySandboxFS.relpath`: canonically resolve, check containment,
convert to the root-relative form. -/
def relpath (fs : ReadOnlySandboxFS) (abs_path : PathM) : Except FSError PathM :=
  let r := fs.osResolve abs_path
  if isRelativeTo r fs.root_dir then Except.ok (r.relativeTo fs.root_dir)
  else Except.error (FSError.sandboxViolation r)


/-!  Header rules (`header_rules.py`).

`check_header` joins the first `top_lines` lines of the source, tests each
required marker for substring membership, and — when all markers are
present — re-runs the regular expression `Description:\s*(.+)` over the
head and requires the first group to strip to something non-empty.  The
regex fragment is embedded operationally: `matchWsDot` performs the greedy
`\s*` with backtracking followed by `(.+)` (where `.` stops at a newline),
and `descSearch` scans for the leftmost position where the whole pattern
matches, exactly as `re.search` does. -/

/-- Unicode whitespace, as matched by Python's `\s` (in `str` mode) and by
`str.strip` / `str.isspace`. -/
def isPyWs (c : Char) : Bool :=
  let n := c.toNat
  n = 32 ∨ (9 ≤ n ∧ n ≤ 13) ∨ (28 ≤ n ∧ n ≤ 31) ∨ n = 0x85 ∨ n = 0xa0 ∨
  n = 0x1680 ∨ (0x2000 ≤ n ∧ n ≤ 0x200a) ∨ n = 0x2028 ∨ n = 0x2029 ∨
  n = 0x202f ∨ n = 0x205f ∨ n = 0x3000

/-- The line boundaries recognised by `str.splitlines`. -/
def isLineBreakC (c : Char) : Bool :=
  let n := c.toNat
  n = 10 ∨ n = 11 ∨ n = 12 ∨ n = 13 ∨ n = 28 ∨ n = 29 ∨ n = 30 ∨
  n = 0x85 ∨ n = 0x2028 ∨ n = 0x2029

/-- Break a character list at every line boundary (`\r\n` counts once);
always yields one chunk more than the number of boundaries. -/
def splitLinesCore : List Char → List (List Char)
  | [] => [[]]
  | c :: rest =>
    if c = '\r' then
      match rest with
      | '\n' :: rest2 => [] :: splitLinesCore rest2
      | other => [] :: splitLinesCore other
    else if isLineBreakC c then [] :: splitLinesCore rest
    else
      match splitLinesCore rest with
      | [] => [[c]]
      | l :: ls => (c :: l) :: ls

/-- `str.splitlines`: no empty trailing chunk after a terminal boundary,
and the empty string yields no lines at all. -/
def splitLinesC (l : List Char) : List (List Char) :=
  let r := splitLinesCore l
  if r.getLast? = some [] then r.dropLast else r

/-- `"\n".join` over character lists. -/
def joinNL : List (List Char) → List Char
  | [] => []
  | [x] => x
  | x :: y :: xs => x ++ '\n' :: joinNL (y :: xs)

/-- `str.strip()`. -/
def pyStripL (l : List Char) : List Char :=
  ((l.dropWhile isPyWs).reverse.dropWhile isPyWs).reverse

/-- `str.rstrip()`. -/
def pyRstripL (l : List Char) : List Char :=
  (l.reverse.dropWhile isPyWs).reverse

/-- `str.strip()` on strings. -/
def pyStripS (s : String) : String := String.mk (pyStripL s.data)

/-- Python's `needle in hay` substring test. -/
def containsSub (hay : List Char) (needle : String) : Bool :=
  decide (needle.data <:+: hay)

/-- `REQUIRED_KEYS` of `header_rules.py`. -/
def REQUIRED_KEYS : List String :=
  ["File name:", "Author:", "Date last modified:", "Python Version:",
   "Description:", "License:"]

/-- `HeaderCheckResult` of `header_rules.py`. -/
structure HeaderCheckResult where
  ok : Bool
  missing_keys : List String
  message : String
deriving DecidableEq

/-- Greedy `\s*` followed by `(.+)` with backtracking, returning the text
captured by the group, or `none` when nothing can match (`.` does not match
a newline; every other character, whitespace included, it does match). -/
def matchWsDot : List Char → Option (List Char)
  | [] => none
  | c :: rest =>
    if isPyWs c then
      match matchWsDot rest with
      | some g => some g
      | none =>
        if c = '\n' then none
        else some ((c :: rest).takeWhile (fun x => x ≠ '\n'))
    else some ((c :: rest).takeWhile (fun x => x ≠ '\n'))

/-- The characters of the literal `"Description:"`. -/
def descKeyChars : List Char := "Description:".data

/-- `re.search(r"Description:\s*(.+)", ...)`: try the pattern at each
position from the left; return the group of the first position where it
matches. -/
def descSearch (key : List Char) : List Char → Option (List Char)
  | [] => none
  | c :: rest =>
    if key.isPrefixOf (c :: rest) then
      match matchWsDot ((c :: rest).drop key.length) with
      | some g => some g
      | none => descSearch key rest
    else descSearch key rest

/-- The characters following the first occurrence of `key`, if any. -/
def firstOccSuffix (key : List Char) : List Char → Option (List Char)
  | [] => none
  | c :: rest =>
    if key.isPrefixOf (c :: rest) then some ((c :: rest).drop key.length)
    else firstOccSuffix key rest

/-- Everything after the first `Description:` (if one occurs) is
whitespace — the executable form of the claim's "immediately followed only
by whitespace/newline". -/
def descTailAllWs (l : List Char) : Bool :=
  match firstOccSuffix descKeyChars l with
  | some suf => suf.all isPyWs
  | none => true

/-- The regex search succeeds and its group strips to something
non-empty — the executable form of "non-whitespace content after
`Description:`". -/
def descriptionFilled (l : List Char) : Bool :=
  match descSearch descKeyChars l with
  | some g => !(pyStripL g).isEmpty
  | none => false

/-- Python `repr` of a list of (quote-free) strings, as interpolated into
the missing-keys message by the f-string. -/
def pyReprStrList (l : List String) : String :=
  "[" ++ joinWith ", " (l.map (fun s => "\x27" ++ s ++ "\x27")) ++ "]"

/-- The first `top_lines` lines of the source, rejoined with newlines. -/
def headOf (source : String) (top_lines : Nat) : List Char :=
  joinNL ((splitLinesC source.data).take top_lines)

/-- `check_header` of `header_rules.py`. -/
def check_header (source : String) (top_lines : Nat) : HeaderCheckResult :=
  let head := headOf source top_lines
  let missing := REQUIRED_KEYS.filter (fun k => !(containsSub head k))
  if missing.isEmpty then
    if containsSub head "Description:" then
      match descSearch descKeyChars head with
      | none => ⟨false, [], "Description field is present but empty."⟩
      | some g =>
        if (pyStripL g).isEmpty then
          ⟨false, [], "Description field is present but empty."⟩
        else ⟨true, [], "Header looks OK."⟩
    else ⟨true, [], "Header looks OK."⟩
  else
    ⟨false, missing,
      "Missing header keys in first " ++ toString top_lines ++ " lines: " ++
        pyReprStrList missing⟩


/-- Sample source with a complete header and a filled description. -/
def sGood : String :=
  "File name: a.py\nAuthor: L\nDate last modified: 2025-01-01\nPython Version: 3.11\nDescription:\n    Does a thing.\nLicense:\n    MIT\n"

/-- Sample source missing the `Author:` and `License:` markers. -/
def sMissing : String :=
  "File name: a.py\nDate last modified: 2025-01-01\nPython Version: 3.11\nDescription:\n    Does a thing.\n"

/-- Sample source with every marker but an empty description. -/
def sEmptyDesc : String :=
  "File name: a.py\nAuthor: L\nDate last modified: 2025-01-01\nPython Version: 3.11\nLicense: MIT\nDescription: \n"


/-!  Documentation generation (`docgen.py`).

LLM responses are dynamically typed Python values; `PyVal` models the
shapes `_extract_text` discriminates on: `None`, strings, numbers, lists,
dicts, and attribute-bearing objects (an attribute map plus the `str()`
rendering).  `digForString` carries explicit fuel: Python guards
`depth > 6` and recurses with `depth + 1`, so depth 0 corresponds to fuel
7.  `ensure_dir` and the actual byte write are filesystem effects; the
written bytes are surfaced as the second component of the result. -/

/-- A dynamically-typed Python value as seen by `_extract_text`. -/
inductive PyVal where
  | vnone
  | vstr (s : String)
  | vint (n : Int)
  | vlist (items : List PyVal)
  | vdict (entries : List (String × PyVal))
  | vobj (attrs : List (String × PyVal)) (rep : String)

/-- `dict.get`: first binding of the key (keys are unique in Python dicts;
insertion order is preserved). -/
def pyDictGet (d : List (String × PyVal)) (k : String) : Option PyVal :=
  match d.find? (fun e => e.1 = k) with
  | some e => some e.2
  | none => none

/-- `getattr(obj, name, None)`: only objects have attributes. -/
def pyGetattr (v : PyVal) (name : String) : Option PyVal :=
  match v with
  | PyVal.vobj attrs _ => pyDictGet attrs name
  | _ => none

mutual

/-- Python `repr`, for the `str()` fallback of `_extract_text`
(strings are shown quote-delimited; escape sequences are not modelled). -/
def pyRepr : PyVal → String
  | PyVal.vnone => "None"
  | PyVal.vstr s => "\x27" ++ s ++ "\x27"
  | PyVal.vint n => toString n
  | PyVal.vlist l => "[" ++ joinWith ", " (pyReprList l) ++ "]"
  | PyVal.vdict d => "\x7b" ++ joinWith ", " (pyReprPairs d) ++ "\x7d"
  | PyVal.vobj _ rep => rep

/-- `repr` of each element of a list. -/
def pyReprList : List PyVal → List String
  | [] => []
  | x :: xs => pyRepr x :: pyReprList xs

/-- `repr` of each `key: value` pair of a dict. -/
def pyReprPairs : List (String × PyVal) → List String
  | [] => []
  | (k, v) :: xs => ("\x27" ++ k ++ "\x27: " ++ pyRepr v) :: pyReprPairs xs

end

/-- Python `str()`: identity on strings, `__str__` on objects, `repr`
otherwise. -/
def pyStr : PyVal → String
  | PyVal.vstr s => s
  | PyVal.vobj _ rep => rep
  | v => pyRepr v

/-- One Responses-style content block `{"type": "text", "text": t}`. -/
def textBlock? (item : PyVal) : Option String :=
  match item with
  | PyVal.vdict d =>
    match pyDictGet d "type", pyDictGet d "text" with
    | some (PyVal.vstr "text"), some (PyVal.vstr t) => some t
    | _, _ => none
  | _ => none

/-- The `message.content` preference of `_dig_for_string` (returned even
when empty). -/
def prefMsg (d : List (String × PyVal)) : Option String :=
  match pyDictGet d "message" with
  | some (PyVal.vdict m) =>
    match pyDictGet m "content" with
    | some (PyVal.vstr c) => some c
    | _ => none
  | _ => none

/-- `if s: return s` — Python truthiness skips empty strings. -/
def truthyFilter (s : Option String) : Option String :=
  match s with
  | some s2 => if s2 = "" then none else some s2
  | none => none

/-- First truthy result of `f` over a list, in order. -/
def firstTruthyWith (f : PyVal → Option String) : List PyVal → Option String
  | [] => none
  | x :: xs =>
    match truthyFilter (f x) with
    | some s => some s
    | none => firstTruthyWith f xs

/-- `_dig_for_string` with explicit fuel (`fuel = 7 - depth`): prefer
`message.content`, then the `choices` list, then every dict value /
list element in order, always skipping empty recursive results. -/
def digForString : Nat → PyVal → Option String
  | 0, _ => none
  | fuel + 1, obj =>
    match obj with
    | PyVal.vstr s => some s
    | PyVal.vdict d =>
      (match prefMsg d with
       | some c => some c
       | none =>
         match pyDictGet d "choices" with
         | some (PyVal.vlist ch) =>
           (match firstTruthyWith (fun v => digForString fuel v) ch with
            | some s => some s
            | none => firstTruthyWith (fun v => digForString fuel v) (d.map Prod.snd))
         | _ => firstTruthyWith (fun v => digForString fuel v) (d.map Prod.snd))
    | PyVal.vlist l => firstTruthyWith (fun v => digForString fuel v) l
    | _ => none

/-- The direct-key loop of `_extract_text` step 4. -/
def directKeyStr (d : List (String × PyVal)) : Option String :=
  match pyDictGet d "content" with
  | some (PyVal.vstr v) => some v
  | _ =>
    match pyDictGet d "text" with
    | some (PyVal.vstr v) => some v
    | _ =>
      match pyDictGet d "output" with
      | some (PyVal.vstr v) => some v
      | _ =>
        match pyDictGet d "message" with
        | some (PyVal.vstr v) => some v
        | _ => none

/-- Steps 4 and 5 of `_extract_text` (dict probing, dig, fallback). -/
def extractTextLate (resp : PyVal) : String :=
  match resp with
  | PyVal.vdict d =>
    (match directKeyStr d with
     | some v => v
     | none =>
       match digForString 7 resp with
       | some v => v
       | none => pyStr resp)
  | _ => pyStr resp

/-- `_extract_text` of `docgen.py`: None, plain string, content-block
list, string `content` attribute, dict direct keys, bounded dig, `str()`
fallback — in that order. -/
def extract_text (resp : PyVal) : String :=
  match resp with
  | PyVal.vnone => ""
  | PyVal.vstr s => s
  | _ =>
    match pyGetattr resp "content" with
    | some (PyVal.vlist items) =>
      (match items.filterMap textBlock? with
       | [] => extractTextLate resp
       | p :: parts => joinWith "\n" (p :: parts))
    | some (PyVal.vstr c) => c
    | _ => extractTextLate resp

/-- `_extract_model_hint`: attribute candidates then dict-key candidates,
first non-empty stripped string wins. -/
def hintCandidate (v : Option PyVal) : Option String :=
  match v with
  | some (PyVal.vstr s) =>
    if (pyStripL s.data).isEmpty then none else some (String.mk (pyStripL s.data))
  | _ => none

/-- `_extract_model_hint` of `docgen.py`. -/
def extract_model_hint (resp : PyVal) : Option String :=
  match hintCandidate (pyGetattr resp "model") with
  | some s => some s
  | none =>
    match hintCandidate (pyGetattr resp "model_name") with
    | some s => some s
    | none =>
      match resp with
      | PyVal.vdict d =>
        (match hintCandidate (pyDictGet d "model") with
         | some s => some s
         | none => hintCandidate (pyDictGet d "model_name"))
      | _ => none


/-- The truncation notice of `_truncate_source`. -/
def truncNote : String :=
  "\n\n# --- TRUNCATED ---\n# The source file was truncated before being sent to the LLM.\n# Consider generating docs per-section if you need full coverage.\n# --- TRUNCATED ---\n\n"

/-- `source[-k:]` — Python negative slicing: `-0` degenerates to the whole
string, otherwise the last `min k (length)` characters. -/
def pySliceFromNeg (l : List Char) (k : Nat) : List Char :=
  if k = 0 then l else l.drop (l.length - k)

/-- `_truncate_source`: leading `int(max_chars * 0.65)` characters, the
notice, then the trailing `int(max_chars * 0.25)` characters.  Python
computes the factors in IEEE doubles; this embedding uses the exact
rationals 13/20 and 1/4, which agree at the default ceiling 120000
(78000 and 30000). -/
def truncate_source (source : String) (max_chars : Nat) : String :=
  String.mk (source.data.take (13 * max_chars / 20) ++ truncNote.data ++
    pySliceFromNeg source.data (max_chars / 4))

/-- The guard of `generate_doc_for_file` lines 108-109: sources above the
ceiling are truncated, everything else is passed through unchanged. -/
def sourceForPrompt (source : String) (max_source_chars : Nat) : String :=
  if source.length > max_source_chars then truncate_source source max_source_chars
  else source

/-- `DOC_PROMPT` up to the `(request)` placeholder. -/
def promptChunk1 : String :=
  "\nYou are a senior Python engineer.\n\nYou must generate documentation for the following Python file.\nThe user request below specifies what to emphasize. Follow it carefully when relevant.\n\nIMPORTANT SAFETY RULES:\n- Never include secrets, credentials, API keys, tokens, private keys, or passwords.\n- If the source contains sensitive-looking values, do not reproduce them. Describe them generically.\n\nUSER REQUEST (high priority):\n"

/-- `DOC_PROMPT` between the `(request)` and `(relpath)` placeholders. -/
def promptChunk2 : String :=
  "\n\nOutput format:\n- Markdown\n- Title: the file path\n- Sections:\n  - Overview (what it does, in 3-6 bullet points)\n  - Public API (functions/classes likely intended for import/use)\n  - Key behaviors and edge cases\n  - Inputs/outputs and side effects\n  - Usage examples (short, realistic)\n  - Risks/TODOs (brief)\n\nKeep it practical and concise.\n\nFILE PATH: "

/-- `DOC_PROMPT` between the `(relpath)` and `(source)` placeholders. -/
def promptChunk3 : String := "\n\nPYTHON SOURCE:\n```python\n"

/-- `DOC_PROMPT` after the `(source)` placeholder. -/
def promptChunk4 : String := "\n```\n"

/-- `prompt_template.format(relpath=..., source=..., request=...)` applied
to `DOC_PROMPT` (the request is stripped first, as on line 116). -/
def renderPrompt (relp : PathM) (source : String) (request : String) : String :=
  promptChunk1 ++ String.mk (pyStripL request.data) ++ promptChunk2 ++
    pathStr relp ++ promptChunk3 ++ source ++ promptChunk4

/-- `re.match(r"^\s*#\s+", t)`: leading whitespace, a hash, then at least
one whitespace character. -/
def titleStartB (l : List Char) : Bool :=
  match l.dropWhile isPyWs with
  | c1 :: c2 :: _ => c1 = '#' && isPyWs c2
  | _ => false

/-- `_unwrap_single_fence`: if the whole text starts and ends with a fence
delimiter and the first and last lines are fence lines, strip those two
lines once and re-strip the interior. -/
def unwrap_single_fence (t : List Char) : List Char :=
  if "```".data.isPrefixOf t && "```".data.isSuffixOf t then
    (if 3 ≤ (splitLinesC t).length &&
        (match (splitLinesC t).head? with
         | some l0 => "```".data.isPrefixOf l0
         | none => false) &&
        (match (splitLinesC t).getLast? with
         | some ln => "```".data.isPrefixOf ln
         | none => false) then
      pyStripL (joinNL ((splitLinesC t).drop 1).dropLast)
    else t)
  else t

/-- `_postprocess_markdown`: strip, unwrap one fence, then prepend a title
synthesised from the relative path unless one is already present. -/
def postprocess_markdown (text : String) (relp : PathM) : String :=
  let t := unwrap_single_fence (pyStripL text.data)
  if titleStartB t then String.mk t
  else String.mk (("# " ++ pathStr relp ++ "\n\n").data ++ t)

/-- `safe_doc_filename`: join the path components with `__`, append `.md`. -/
def safe_doc_filename (parts : List String) : String :=
  joinWith "__" parts ++ ".md"

/-- Failures of `generate_doc_for_file`: empty input (`ValueError`), a
failed LLM call, and empty post-processed output (both `RuntimeError`). -/
inductive DocErr where
  | emptyInput
  | llmInvocationFailed (msg : String)
  | emptyGeneration
deriving DecidableEq

/-- `DocGenResult` of `docgen.py`. -/
structure DocGenResult where
  out_path : PathM
  bytes_written : Nat
  model_hint : Option String
deriving DecidableEq

/-- `generate_doc_for_file`: reject blank sources, truncate oversized ones,
render the prompt, call the LLM (modelled as a function from the prompt to
a response or a failure message), normalise, post-process, reject empty
output, and write `text.rstrip() + "\n"` as UTF-8 bytes to
`out_dir / safe_doc_filename(relpath)`.  The directory creation of
`ensure_dir` is a filesystem effect with no observable value; the bytes
written are returned as the second component. -/
def generate_doc_for_file (llm : String → Except String PyVal) (relp : PathM)
    (source : String) (out_dir : PathM) (request : String)
    (max_source_chars : Nat) : Except DocErr (DocGenResult × String) :=
  if (pyStripL source.data).isEmpty then Except.error DocErr.emptyInput
  else
    match llm (renderPrompt relp (sourceForPrompt source max_source_chars) request) with
    | Except.error e => Except.error (DocErr.llmInvocationFailed e)
    | Except.ok resp =>
      let text := postprocess_markdown (extract_text resp) relp
      if (pyStripL text.data).isEmpty then Except.error DocErr.emptyGeneration
      else
        let data := String.mk (pyRstripL text.data ++ ['\n'])
        Except.ok (⟨out_dir.join ⟨false, [safe_doc_filename relp.segments]⟩,
          data.utf8ByteSize, extract_model_hint resp⟩, data)


/-- `directKeyStr` finds nothing — used to state "no recognizable text". -/
def mkTextBlock (t : String) : PyVal :=
  PyVal.vdict [("type", PyVal.vstr "text"), ("text", PyVal.vstr t)]

/-!  Pipeline nodes (`graph_agent.py`).

The LangGraph state is `AgentState`; each node receives the environment
pieces the Python code reaches for globally: the OS path canonicalisation
(`os`), the file store, the external secret scanner (`scan_for_secrets`
lives in `agent/secrets_scan.py`, an external collaborator here), and the
LLM.  Mappings are association lists in insertion order, which is the
iteration order of a Python dict. -/

/-- One secret finding as consumed by `node_scan_secrets`. -/
structure SecretFinding where
  kind : String
  line : Nat
  excerpt : String
deriving DecidableEq

/-- Errors that can escape a pipeline node. -/
inductive RunErr where
  | fs (e : FSError)
  | doc (e : DocErr)
deriving DecidableEq

/-- `AgentState` of `graph_agent.py` (paths held in resolved form). -/
structure AgentState where
  request : String
  root_dir : PathM
  out_dir : PathM
  file_list : List PathM
  header_issues : List (PathM × String)
  secrets : List (PathM × List SecretFinding)
  docs : List (PathM × PathM)
  summary : String
deriving DecidableEq

/-- The initial state built by `run_agent`. -/
def initState (request : String) (root out : PathM) : AgentState :=
  ⟨request, root, out, [], [], [], [], ""⟩

/-- Code-point comparison of rendered paths (Python compares paths by
their string form). -/
def charListLe : List Char → List Char → Bool
  | [], _ => true
  | _ :: _, [] => false
  | a :: as, b :: bs => if a = b then charListLe as bs else decide (a < b)

/-- `p <= q` on paths as `sorted` sees it. -/
def pathLe (p q : PathM) : Bool :=
  charListLe (pathStr p).data (pathStr q).data

/-- Insertion into a sorted list. -/
def insertPathSorted (x : PathM) : List PathM → List PathM
  | [] => [x]
  | y :: ys => if pathLe x y then x :: y :: ys else y :: insertPathSorted x ys

/-- `sorted(...)`: any correct sort; insertion sort (stable, and the
discovered paths are distinct). -/
def sortPaths : List PathM → List PathM
  | [] => []
  | x :: xs => insertPathSorted x (sortPaths xs)

/-- `name.endswith(".py")`. -/
def endsWithPy (name : String) : Bool :=
  ".py".data.isSuffixOf name.data

/-- `list_python_files`: every stored file under the root whose final
segment ends in `.py`, sorted. -/
def list_python_files (fs : ReadOnlySandboxFS) (fsys : FileSys) : List PathM :=
  sortPaths ((fsys.filter (fun e =>
    e.1.absolute && fs.root_dir.segments.isPrefixOf e.1.segments &&
    (match e.1.segments.getLast? with
     | some name => endsWithPy name
     | none => false))).map Prod.fst)

/-- `node_discover_files`: enumerate and convert each path to its
root-relative form. -/
def node_discover_files (os : PathM → PathM) (fsys : FileSys)
    (st : AgentState) : Except RunErr AgentState :=
  match (list_python_files ⟨st.root_dir, os⟩ fsys).mapM
      (fun p => relpath ⟨st.root_dir, os⟩ p) with
  | Except.error e => Except.error (RunErr.fs e)
  | Except.ok rels => Except.ok { st with file_list := rels }

/-- The per-file loop shared by `node_check_headers` and
`node_scan_secrets`: read each file (failures propagate out of the whole
fold — there is no try/except around `fs.read_text` in the source) and
accumulate with `step`. -/
def perFileFold {β : Type} (step : β → PathM → String → β)
    (fs : ReadOnlySandboxFS) (fsys : FileSys) (files : List PathM)
    (init : β) : Except RunErr β :=
  files.foldlM (fun acc rel =>
    match read_text fs fsys rel 2000000 with
    | Except.error e => Except.error (RunErr.fs e)
    | Except.ok src => Except.ok (step acc rel src)) init

/-- Loop body of `node_check_headers`: record a failing file's message. -/
def stepHeader (issues : List (PathM × String)) (rel : PathM) (src : String) :
    List (PathM × String) :=
  if (check_header src 40).ok then issues
  else issues ++ [(rel, (check_header src 40).message)]

/-- `node_check_headers`. -/
def node_check_headers (os : PathM → PathM) (fsys : FileSys)
    (st : AgentState) : Except RunErr AgentState :=
  match perFileFold stepHeader ⟨st.root_dir, os⟩ fsys st.file_list [] with
  | Except.error e => Except.error e
  | Except.ok issues => Except.ok { st with header_issues := issues }

/-- Loop body of `node_scan_secrets`: record non-empty finding lists. -/
def stepSecrets (scanner : String → List SecretFinding)
    (acc : List (PathM × List SecretFinding)) (rel : PathM) (src : String) :
    List (PathM × List SecretFinding) :=
  if (scanner src).isEmpty then acc else acc ++ [(rel, scanner src)]

/-- `node_scan_secrets` (the scanner itself is the external
`scan_for_secrets`). -/
def node_scan_secrets (scanner : String → List SecretFinding)
    (os : PathM → PathM) (fsys : FileSys) (st : AgentState) :
    Except RunErr AgentState :=
  match perFileFold (stepSecrets scanner) ⟨st.root_dir, os⟩ fsys st.file_list [] with
  | Except.error e => Except.error e
  | Except.ok findings => Except.ok { st with secrets := findings }

/-- The per-file loop of `node_generate_docs`: read, generate, record the
output path; both read and generation failures propagate. -/
def genDocsFold (llm : String → Except String PyVal) (fs : ReadOnlySandboxFS)
    (fsys : FileSys) (out_dir : PathM) (request : String)
    (files : List PathM) (init : List (PathM × PathM)) :
    Except RunErr (List (PathM × PathM)) :=
  files.foldlM (fun docs rel =>
    match read_text fs fsys rel 2000000 with
    | Except.error e => Except.error (RunErr.fs e)
    | Except.ok src =>
      match generate_doc_for_file llm rel src out_dir request 120000 with
      | Except.error e => Except.error (RunErr.doc e)
      | Except.ok r => Except.ok (docs ++ [(rel, r.1.out_path)])) init

/-- `node_generate_docs`. -/
def node_generate_docs (llm : String → Except String PyVal)
    (os : PathM → PathM) (fsys : FileSys) (st : AgentState) :
    Except RunErr AgentState :=
  match genDocsFold llm ⟨st.root_dir, os⟩ fsys st.out_dir st.request
      st.file_list [] with
  | Except.error e => Except.error e
  | Except.ok docs => Except.ok { st with docs := docs }

/-- `node_finalize`: the summary string. -/
def node_finalize (st : AgentState) : AgentState :=
  { st with summary :=
      "Processed " ++ toString st.file_list.length ++ " files.\n" ++
      "Header issues: " ++ toString st.header_issues.length ++ " files.\n" ++
      "Secret findings: " ++ toString st.secrets.length ++ " files.\n" ++
      "Docs generated: " ++ toString st.docs.length ++ " files.\n" ++
      "Output dir: " ++ pathStr st.out_dir ++ "\n" }


/-!  Concrete fixtures used by witnesses and counterexamples. -/

/-- Demo sandbox root `/r`. -/
def rootDemo : PathM := ⟨true, ["r"]⟩

/-- Demo output directory `/out`. -/
def outDemo : PathM := ⟨true, ["out"]⟩

/-- `/r/big.py`, an oversized file. -/
def bigPy : PathM := ⟨true, ["r", "big.py"]⟩

/-- `/r/ok.py`. -/
def okPy : PathM := ⟨true, ["r", "ok.py"]⟩

/-- `/r/good.py`, complete header. -/
def goodPy : PathM := ⟨true, ["r", "good.py"]⟩

/-- `/r/bad.py`, header missing only `License:`. -/
def badPy : PathM := ⟨true, ["r", "bad.py"]⟩

/-- Source with every marker except `License:`. -/
def sBadLicense : String :=
  "File name: b.py\nAuthor: L\nDate last modified: 2025-01-01\nPython Version: 3.11\nDescription:\n    Does things.\n"

/-- Store with one readable and one oversized file. -/
def fsysC3 : FileSys := [(okPy, ⟨20, sGood⟩), (bigPy, ⟨3000000, "X = 1\n"⟩)]

/-- State whose file list puts the oversized file first. -/
def stC3 : AgentState :=
  { initState "" rootDemo outDemo with
      file_list := [⟨false, ["big.py"]⟩, ⟨false, ["ok.py"]⟩] }

/-- State whose file list puts the readable file first. -/
def stC3w : AgentState :=
  { initState "" rootDemo outDemo with
      file_list := [⟨false, ["ok.py"]⟩, ⟨false, ["big.py"]⟩] }

/-- Store with the two-file root of the end-to-end scenario. -/
def fsysC5 : FileSys := [(goodPy, ⟨30, sGood⟩), (badPy, ⟨25, sBadLicense⟩)]

/-- A deterministic text-generation stub. -/
def llmStub : String → Except String PyVal :=
  fun _ => Except.ok (PyVal.vstr "# Doc\n\nBody.")

/-- The state after discovery over `fsysC5`. -/
def stDisc : AgentState :=
  { initState "req" rootDemo outDemo with
      file_list := [⟨false, ["bad.py"]⟩, ⟨false, ["good.py"]⟩] }

/-- The state after `CheckHeaders` over `fsysC5`. -/
def stHdr : AgentState :=
  { stDisc with header_issues :=
      [(⟨false, ["bad.py"]⟩,
        "Missing header keys in first 40 lines: [\x27License:\x27]")] }

/-- The state after `GenerateDocs` over `fsysC5`. -/
def stDocs : AgentState :=
  { stHdr with docs :=
      [(⟨false, ["bad.py"]⟩, ⟨true, ["out", "bad.py.md"]⟩),
       (⟨false, ["good.py"]⟩, ⟨true, ["out", "good.py.md"]⟩)] }

/-- The end-to-end run of the pipeline stages over the two-file root. -/
def c5run : Except RunErr AgentState :=
  match node_discover_files normalizeAbs fsysC5 (initState "req" rootDemo outDemo) with
  | Except.error e => Except.error e
  | Except.ok st1 =>
    match node_check_headers normalizeAbs fsysC5 st1 with
    | Except.error e => Except.error e
    | Except.ok st2 =>
      match node_scan_secrets (fun _ => []) normalizeAbs fsysC5 st2 with
      | Except.error e => Except.error e
      | Except.ok st3 => node_generate_docs llmStub normalizeAbs fsysC5 st3

/-- `underscore-free, non-empty` components, the domain on which the flat
output naming is injective. -/
def underscoreFreeParts (parts : List String) : Bool :=
  parts.all (fun s => !s.data.isEmpty && s.data.all (fun c => c ≠ '_'))

-- ===== Theorems =====

/-- Claim C1: any path whose canonical resolution falls outside the sandbox
root is rejected with `SandboxViolation` by both `_resolve_under_root` and
`read_text`; and the containment test is on the resolved path, not a
syntactic string-prefix test: a relative path with `..` segments whose raw
joined string starts with the root's string is still rejected. -/
theorem c1_sandbox_escape_rejected :
    (∀ (fs : ReadOnlySandboxFS) (fsys : FileSys) (path : PathM) (mb : Nat),
      isRelativeTo (fs.osResolve (joinCandidate fs path)) fs.root_dir = false →
      resolveUnderRoot fs path =
        Except.error (FSError.sandboxViolation
          (fs.osResolve (joinCandidate fs path))) ∧
      read_text fs fsys path mb =
        Except.error (FSError.sandboxViolation
          (fs.osResolve (joinCandidate fs path))))
    ∧
    (let root : PathM := ⟨true, ["home", "user"]⟩
     let fs : ReadOnlySandboxFS := ⟨root, normalizeAbs⟩
     let evil : PathM := ⟨false, ["sub", "..", "..", "etc", "passwd"]⟩
     (pathStr root).data.isPrefixOf (pathStr (joinCandidate fs evil)).data = true ∧
     resolveUnderRoot fs evil =
       Except.error (FSError.sandboxViolation ⟨true, ["home", "etc", "passwd"]⟩)) := by
  constructor
  · intro fs fsys path mb h
    have hres : resolveUnderRoot fs path =
        Except.error (FSError.sandboxViolation
          (fs.osResolve (joinCandidate fs path))) := by
      unfold resolveUnderRoot
      simp [h]
    refine ⟨hres, ?_⟩
    unfold read_text
    rw [hres]
    rfl
  · exact ⟨by decide, by rfl⟩

/-- Witness for claim C1: a concrete absolute path outside the root is
rejected by both functions. -/
theorem c1_sandbox_escape_rejected_witness :
    (isRelativeTo
      ((⟨⟨true, ["home", "user"]⟩, normalizeAbs⟩ : ReadOnlySandboxFS).osResolve
        (joinCandidate ⟨⟨true, ["home", "user"]⟩, normalizeAbs⟩ ⟨true, ["etc"]⟩))
      (⟨true, ["home", "user"]⟩ : PathM) = false) ∧
    resolveUnderRoot ⟨⟨true, ["home", "user"]⟩, normalizeAbs⟩ ⟨true, ["etc"]⟩ =
      Except.error (FSError.sandboxViolation ⟨true, ["etc"]⟩) ∧
    read_text ⟨⟨true, ["home", "user"]⟩, normalizeAbs⟩ [] ⟨true, ["etc"]⟩ 100 =
      Except.error (FSError.sandboxViolation ⟨true, ["etc"]⟩) := by
  refine ⟨by rfl, ?_⟩
  have h := (c1_sandbox_escape_rejected.1
    ⟨⟨true, ["home", "user"]⟩, normalizeAbs⟩ [] ⟨true, ["etc"]⟩ 100 (by decide))
  exact ⟨h.1, h.2⟩

/-- Claim C9: a relative path obtained from `relpath` (as every entry of the
discovered file list is) round-trips: resolving it under the root and
converting back with `relpath` returns it unchanged.  The only environment
fact used is that the OS canonicalisation is idempotent at the resolved
path. -/
theorem c9_relpath_roundtrip (fs : ReadOnlySandboxFS) (f P : PathM)
    (h1 : relpath fs f = Except.ok P)
    (h2 : fs.osResolve (fs.osResolve f) = fs.osResolve f) :
    (resolveUnderRoot fs P).bind (fun a => relpath fs a) = Except.ok P := by
  unfold relpath at h1
  by_cases hrel : isRelativeTo (fs.osResolve f) fs.root_dir = true
  · simp only [hrel, if_true] at h1
    have hP : P = (fs.osResolve f).relativeTo fs.root_dir := by
      cases h1; rfl
    have habs : (fs.osResolve f).absolute = fs.root_dir.absolute := by
      have := hrel
      unfold isRelativeTo at this
      simp only [Bool.and_eq_true, beq_iff_eq] at this
      exact this.1
    have hpre : fs.root_dir.segments <+: (fs.osResolve f).segments := by
      have := hrel
      unfold isRelativeTo at this
      simp only [Bool.and_eq_true, beq_iff_eq] at this
      exact List.isPrefixOf_iff_prefix.mp this.2
    obtain ⟨t, ht⟩ := hpre
    -- The rejoined candidate is exactly the canonical form of `f`.
    have hcand : joinCandidate fs P = fs.osResolve f := by
      unfold joinCandidate
      subst hP
      simp only [PathM.relativeTo, PathM.join]
      have hdrop : (fs.osResolve f).segments.drop fs.root_dir.segments.length = t := by
        rw [← ht, List.drop_left]
      rw [hdrop]
      cases hf : fs.osResolve f with
      | mk a s =>
        simp only [hf] at habs ht hdrop ⊢
        simp [habs, ← ht]
    have hresolved : fs.osResolve (joinCandidate fs P) = fs.osResolve f := by
      rw [hcand, h2]
    have hP_notabs : P.absolute = false := by
      subst hP; rfl
    unfold resolveUnderRoot
    rw [hresolved]
    simp only [hrel, if_true]
    show relpath fs (fs.osResolve f) = Except.ok P
    unfold relpath
    rw [h2]
    simp only [hrel, if_true]
    rw [← hP]
  · simp only [Bool.not_eq_true] at hrel
    simp [hrel] at h1

/-- Witness for claim C9: round-trip at a concrete discovered path. -/
theorem c9_relpath_roundtrip_witness :
    (relpath ⟨⟨true, ["r"]⟩, normalizeAbs⟩ ⟨true, ["r", "a", "b.py"]⟩ =
      Except.ok ⟨false, ["a", "b.py"]⟩) ∧
    ((⟨⟨true, ["r"]⟩, normalizeAbs⟩ : ReadOnlySandboxFS).osResolve
        ((⟨⟨true, ["r"]⟩, normalizeAbs⟩ : ReadOnlySandboxFS).osResolve
          ⟨true, ["r", "a", "b.py"]⟩) =
      (⟨⟨true, ["r"]⟩, normalizeAbs⟩ : ReadOnlySandboxFS).osResolve
        ⟨true, ["r", "a", "b.py"]⟩) ∧
    (resolveUnderRoot ⟨⟨true, ["r"]⟩, normalizeAbs⟩ ⟨false, ["a", "b.py"]⟩).bind
        (fun a => relpath ⟨⟨true, ["r"]⟩, normalizeAbs⟩ a) =
      Except.ok ⟨false, ["a", "b.py"]⟩ := by
  refine ⟨by rfl, by rfl, ?_⟩
  exact c9_relpath_roundtrip ⟨⟨true, ["r"]⟩, normalizeAbs⟩
    ⟨true, ["r", "a", "b.py"]⟩ ⟨false, ["a", "b.py"]⟩ (by rfl) (by rfl)

/-- Every list obtained by `takeWhile`, and generally every sublist, keeps
an `all` property. -/
theorem all_of_sublist {p : Char → Bool} {l₁ l₂ : List Char}
    (hs : l₁.Sublist l₂) (h : l₂.all p = true) : l₁.all p = true := by
  rw [List.all_eq_true] at *
  exact fun x hx => h x (hs.subset hx)

/-- A suffix of an all-whitespace list is all-whitespace. -/
theorem all_of_suffix {l₁ l₂ : List Char} (h : l₁ <:+ l₂)
    (hall : l₂.all isPyWs = true) : l₁.all isPyWs = true := by
  obtain ⟨t, rfl⟩ := h
  simp only [List.all_append, Bool.and_eq_true] at hall
  exact hall.2

/-- Of two suffixes of the same list, the shorter is a suffix of the longer. -/
theorem suffix_of_suffix_le {α : Type} {a c b : List α}
    (h1 : a <:+ b) (h2 : c <:+ b) (hl : a.length ≤ c.length) : a <:+ c := by
  rw [← List.reverse_prefix] at h1 h2 ⊢
  exact List.prefix_of_prefix_length_le h1 h2 (by simpa using hl)

/-- On an all-whitespace list the regex tail `\s*(.+)` either fails or
captures only whitespace. -/
theorem matchWsDot_all_ws :
    ∀ l : List Char, l.all isPyWs = true →
      matchWsDot l = none ∨
        ∃ g, matchWsDot l = some g ∧ g.all isPyWs = true := by
  intro l
  induction l with
  | nil => intro _; exact Or.inl rfl
  | cons c rest ih =>
    intro h
    simp only [List.all_cons, Bool.and_eq_true] at h
    have hws : isPyWs c = true := h.1
    rcases ih h.2 with hnone | ⟨g, hg, hgall⟩
    · by_cases hc : c = '\n'
      · exact Or.inl (by subst hc; simp [matchWsDot, hws, hnone])
      · refine Or.inr ⟨(c :: rest).takeWhile (fun x => x ≠ '\n'), ?_, ?_⟩
        · simp [matchWsDot, hws, hnone, hc]
        · exact all_of_sublist (List.takeWhile_sublist _)
            (by simp [List.all_cons, hws, h.2])
    · exact Or.inr ⟨g, by simp [matchWsDot, hws, hg], hgall⟩

/-- A hit of `firstOccSuffix` really is an occurrence. -/
theorem firstOccSuffix_suffix (key : List Char) :
    ∀ l s, firstOccSuffix key l = some s → key ++ s <:+ l := by
  intro l
  induction l with
  | nil => intro s h; simp [firstOccSuffix] at h
  | cons c rest ih =>
    intro s h
    rw [firstOccSuffix] at h
    by_cases hp : key.isPrefixOf (c :: rest)
    · rw [if_pos hp] at h
      obtain ⟨t, ht⟩ := List.isPrefixOf_iff_prefix.mp hp
      cases h
      rw [← ht, List.drop_left]
    · rw [if_neg hp] at h
      exact (ih s h).trans ⟨[c], rfl⟩

/-- When everything after the first `Description:` is whitespace, the regex
search fails or captures only whitespace. -/
theorem descSearch_of_tail_ws :
    ∀ l : List Char, descTailAllWs l = true →
      descSearch descKeyChars l = none ∨
        ∃ g, descSearch descKeyChars l = some g ∧ g.all isPyWs = true := by
  intro l
  induction l with
  | nil => intro _; exact Or.inl rfl
  | cons c rest ih =>
    intro h
    by_cases hp : descKeyChars.isPrefixOf (c :: rest)
    · have hsuf : ((c :: rest).drop descKeyChars.length).all isPyWs = true := by
        unfold descTailAllWs at h
        rw [firstOccSuffix, if_pos hp] at h
        exact h
      have hrest : descTailAllWs rest = true := by
        unfold descTailAllWs
        cases hfo : firstOccSuffix descKeyChars rest with
        | none => rfl
        | some s2 =>
          have hsfx := firstOccSuffix_suffix descKeyChars rest s2 hfo
          obtain ⟨t, ht⟩ := List.isPrefixOf_iff_prefix.mp hp
          have hdrop : (c :: rest).drop descKeyChars.length = t := by
            rw [← ht, List.drop_left]
          have hlen1 : descKeyChars.length + s2.length ≤ rest.length := by
            have := hsfx.length_le
            simpa using this
          have hlen2 : (c :: rest).length = descKeyChars.length + t.length := by
            rw [← ht]; simp
          have hs2t : s2.length ≤ t.length := by
            simp only [List.length_cons] at hlen2
            omega
          have hcr : s2 <:+ c :: rest :=
            (List.suffix_append descKeyChars s2).trans (hsfx.trans ⟨[c], rfl⟩)
          have htcr : t <:+ c :: rest := ⟨descKeyChars, ht⟩
          have hs2 : s2 <:+ t := suffix_of_suffix_le hcr htcr hs2t
          show s2.all isPyWs = true
          exact all_of_suffix hs2 (hdrop ▸ hsuf)
      rcases matchWsDot_all_ws _ hsuf with hnone | ⟨g, hg, hgall⟩
      · rcases ih hrest with h1 | ⟨g, hg2, hga⟩
        · exact Or.inl (by simp [descSearch, hp, hnone, h1])
        · exact Or.inr ⟨g, by simp [descSearch, hp, hnone, hg2], hga⟩
      · exact Or.inr ⟨g, by simp [descSearch, hp, hg], hgall⟩
    · have hrest : descTailAllWs rest = true := by
        unfold descTailAllWs at h ⊢
        rw [firstOccSuffix, if_neg hp] at h
        exact h
      rcases ih hrest with h1 | ⟨g, hg2, hga⟩
      · exact Or.inl (by simp [descSearch, hp, h1])
      · exact Or.inr ⟨g, by simp [descSearch, hp, hg2], hga⟩

/-- Stripping an all-whitespace list yields the empty list. -/
theorem strip_empty_of_all_ws {l : List Char} (h : l.all isPyWs = true) :
    (pyStripL l).isEmpty = true := by
  unfold pyStripL
  have h1 : l.dropWhile isPyWs = [] := by
    rw [List.dropWhile_eq_nil_iff]
    exact fun x hx => List.all_eq_true.mp h x hx
  rw [h1]
  rfl

/-- Claim C2: on text whose first 40 lines contain all six markers and
non-whitespace content after `Description:` the checker passes with no
missing keys; when markers are absent it fails and `missing_keys` lists
exactly the absent markers; and when all markers are present but the first
`Description:` is followed only by whitespace it fails with the
empty-description message and no missing keys. -/
theorem c2_check_header_cases :
    (∀ s : String,
      (∀ k ∈ REQUIRED_KEYS, containsSub (headOf s 40) k = true) →
      descriptionFilled (headOf s 40) = true →
      check_header s 40 = ⟨true, [], "Header looks OK."⟩)
    ∧
    (∀ s : String,
      (∃ k ∈ REQUIRED_KEYS, containsSub (headOf s 40) k = false) →
      ((check_header s 40).ok = false ∧
       ∀ k, k ∈ (check_header s 40).missing_keys ↔
         (k ∈ REQUIRED_KEYS ∧ containsSub (headOf s 40) k = false)))
    ∧
    (∀ s : String,
      (∀ k ∈ REQUIRED_KEYS, containsSub (headOf s 40) k = true) →
      descTailAllWs (headOf s 40) = true →
      check_header s 40 = ⟨false, [], "Description field is present but empty."⟩) := by
  refine ⟨?_, ?_, ?_⟩
  · intro s hall hfill
    have hm : REQUIRED_KEYS.filter (fun k => !(containsSub (headOf s 40) k)) = [] := by
      rw [List.filter_eq_nil]
      intro k hk
      simp [hall k hk]
    have hdesc : containsSub (headOf s 40) "Description:" = true :=
      hall "Description:" (by decide)
    unfold descriptionFilled at hfill
    cases hds : descSearch descKeyChars (headOf s 40) with
    | none => rw [hds] at hfill; simp at hfill
    | some g =>
      rw [hds] at hfill
      simp only [Bool.not_eq_true'] at hfill
      simp [check_header, hm, hdesc, hds, hfill]
  · rintro s ⟨k, hk, hck⟩
    have hkmem : k ∈ REQUIRED_KEYS.filter (fun k => !(containsSub (headOf s 40) k)) :=
      List.mem_filter.mpr ⟨hk, by simp [hck]⟩
    have hne : REQUIRED_KEYS.filter (fun k => !(containsSub (headOf s 40) k)) ≠ [] :=
      List.ne_nil_of_mem hkmem
    have hie : (REQUIRED_KEYS.filter (fun k => !(containsSub (headOf s 40) k))).isEmpty = false := by
      cases hh : REQUIRED_KEYS.filter (fun k => !(containsSub (headOf s 40) k)) with
      | nil => exact absurd hh hne
      | cons a l => rfl
    constructor
    · simp [check_header, hie]
    · intro k2
      simp only [check_header, hie, Bool.false_eq_true, if_false]
      constructor
      · intro hmem
        have := List.mem_filter.mp hmem
        exact ⟨this.1, by simpa using this.2⟩
      · intro ⟨h1, h2⟩
        exact List.mem_filter.mpr ⟨h1, by simp [h2]⟩
  · intro s hall htail
    have hm : REQUIRED_KEYS.filter (fun k => !(containsSub (headOf s 40) k)) = [] := by
      rw [List.filter_eq_nil]
      intro k hk
      simp [hall k hk]
    have hdesc : containsSub (headOf s 40) "Description:" = true :=
      hall "Description:" (by decide)
    rcases descSearch_of_tail_ws (headOf s 40) htail with hnone | ⟨g, hg, hgall⟩
    · simp [check_header, hm, hdesc, hnone]
    · simp [check_header, hm, hdesc, hg, strip_empty_of_all_ws hgall]

/-- Witness for claim C2: the three cases at concrete sources. -/
theorem c2_check_header_cases_witness :
    (descriptionFilled (headOf sGood 40) = true ∧
     check_header sGood 40 = ⟨true, [], "Header looks OK."⟩) ∧
    ((check_header sMissing 40).ok = false ∧
     "License:" ∈ (check_header sMissing 40).missing_keys ∧
     "Author:" ∈ (check_header sMissing 40).missing_keys) ∧
    (descTailAllWs (headOf sEmptyDesc 40) = true ∧
     check_header sEmptyDesc 40 = ⟨false, [], "Description field is present but empty."⟩) := by
  refine ⟨⟨by decide, ?_⟩, ?_, ⟨by decide, ?_⟩⟩
  · exact c2_check_header_cases.1 sGood (by decide) (by decide)
  · have h2 := c2_check_header_cases.2.1 sMissing ⟨"License:", by decide, by decide⟩
    exact ⟨h2.1, (h2.2 "License:").mpr ⟨by decide, by decide⟩,
      (h2.2 "Author:").mpr ⟨by decide, by decide⟩⟩
  · exact c2_check_header_cases.2.2 sEmptyDesc (by decide) (by decide)

/-- Counterexample to claim C6: with ceiling 1 (so `int(0.25 * 1) = 0`)
the Python slice `source[-0:]` appends the whole source, not the last 0
characters, so the truncated text is not head-notice-"last ⌊0.25·max⌋
characters" as claimed. -/
theorem c6_truncation_counterexample :
    sourceForPrompt "abcde" 1 ≠
      String.mk ("abcde".data.take (13 * 1 / 20) ++ truncNote.data ++ []) ∧
    sourceForPrompt "abcde" 1 = String.mk (truncNote.data ++ "abcde".data) := by
  constructor
  · decide
  · rfl

/-- Claim C6 as amended: for ceilings of at least 4 the truncated text is
head ++ notice ++ tail with the exact floors; the 500000-character source
under the default 120000 ceiling yields a substituted section of at most
120000 characters containing the notice; sources at or below the ceiling
pass through unchanged. -/
theorem c6_truncation_amended :
    (∀ (s : String) (m : Nat), 4 ≤ m → m < s.length →
      sourceForPrompt s m =
        String.mk (s.data.take (13 * m / 20) ++ truncNote.data ++
          s.data.drop (s.data.length - m / 4)))
    ∧
    (∀ s : String, s.length = 500000 →
      (sourceForPrompt s 120000).length ≤ 120000 ∧
      truncNote.data <:+: (sourceForPrompt s 120000).data)
    ∧
    (∀ (s : String) (m : Nat), s.length ≤ m → sourceForPrompt s m = s) := by
  have hmain : ∀ (s : String) (m : Nat), 4 ≤ m → m < s.length →
      sourceForPrompt s m =
        String.mk (s.data.take (13 * m / 20) ++ truncNote.data ++
          s.data.drop (s.data.length - m / 4)) := by
    intro s m h4 hlt
    have hk : m / 4 ≠ 0 := by
      have h1 : 1 ≤ m / 4 := (Nat.one_le_div_iff (by norm_num)).mpr h4
      omega
    unfold sourceForPrompt truncate_source pySliceFromNeg
    rw [if_pos hlt, if_neg hk]
  refine ⟨hmain, ?_, ?_⟩
  · intro s h5
    have hlt : 120000 < s.length := by omega
    have h := hmain s 120000 (by norm_num) hlt
    have hdlen : s.data.length = 500000 := h5
    have hnotelen : truncNote.data.length = 171 := by decide
    constructor
    · rw [h]
      show (s.data.take (13 * 120000 / 20) ++ truncNote.data ++
        s.data.drop (s.data.length - 120000 / 4)).length ≤ 120000
      rw [List.length_append, List.length_append, List.length_take,
        List.length_drop, hdlen, hnotelen]
      norm_num
    · rw [h]
      exact ⟨s.data.take (13 * 120000 / 20),
        s.data.drop (s.data.length - 120000 / 4), by simp⟩
  · intro s m hle
    unfold sourceForPrompt
    rw [if_neg (by omega)]

/-- Witness for the amended claim C6: the three parts at concrete inputs. -/
theorem c6_truncation_amended_witness :
    ((4 ≤ 8 ∧ 8 < ("abcdefghij" : String).length) ∧
     sourceForPrompt "abcdefghij" 8 =
       String.mk ("abcdefghij".data.take (13 * 8 / 20) ++ truncNote.data ++
         "abcdefghij".data.drop ("abcdefghij".data.length - 8 / 4))) ∧
    ((String.mk (List.replicate 500000 'x')).length = 500000 ∧
     (sourceForPrompt (String.mk (List.replicate 500000 'x')) 120000).length ≤ 120000 ∧
     truncNote.data <:+:
       (sourceForPrompt (String.mk (List.replicate 500000 'x')) 120000).data) ∧
    (("ab" : String).length ≤ 5 ∧ sourceForPrompt "ab" 5 = "ab") := by
  have hl : (String.mk (List.replicate 500000 'x')).length = 500000 := by
    show (List.replicate 500000 'x').length = 500000
    exact List.length_replicate 500000 'x'
  refine ⟨⟨⟨by norm_num, by decide⟩, ?_⟩, ⟨hl, ?_, ?_⟩, ⟨by decide, ?_⟩⟩
  · exact c6_truncation_amended.1 "abcdefghij" 8 (by norm_num) (by decide)
  · exact (c6_truncation_amended.2.1 (String.mk (List.replicate 500000 'x')) hl).1
  · exact (c6_truncation_amended.2.1 (String.mk (List.replicate 500000 'x')) hl).2
  · exact c6_truncation_amended.2.2 "ab" 5 (by decide)

/-- A list containing a non-whitespace character does not strip to the
empty list. -/
theorem pyStripL_ne_nil {l : List Char} {c : Char} (hc : c ∈ l)
    (hw : isPyWs c = false) : pyStripL l ≠ [] := by
  intro h0
  unfold pyStripL at h0
  rw [List.reverse_eq_nil_iff, List.dropWhile_eq_nil_iff] at h0
  have h1 : ∀ x ∈ l.dropWhile isPyWs, isPyWs x = true := by
    intro x hx
    exact h0 x (List.mem_reverse.mpr hx)
  have hsplit := List.takeWhile_append_dropWhile (p := isPyWs) (l := l)
  have hc2 : c ∈ l.takeWhile isPyWs ++ l.dropWhile isPyWs := by
    rw [hsplit]; exact hc
  rcases List.mem_append.mp hc2 with h | h
  · have h3 := List.mem_takeWhile_imp h
    rw [hw] at h3
    cases h3
  · have h3 := h1 c h
    rw [hw] at h3
    cases h3

/-- Post-processed markdown always strips to something non-empty: either a
title was detected (so a hash character is present) or one was prepended. -/
theorem postprocess_strip_isEmpty_false (text : String) (p : PathM) :
    (pyStripL (postprocess_markdown text p).data).isEmpty = false := by
  unfold postprocess_markdown
  cases htb : titleStartB (unwrap_single_fence (pyStripL text.data)) with
  | true =>
    have htbKeep : titleStartB (unwrap_single_fence (pyStripL text.data)) = true := htb
    unfold titleStartB at htb
    cases hdw : (unwrap_single_fence (pyStripL text.data)).dropWhile isPyWs with
    | nil => rw [hdw] at htb; cases htb
    | cons a rest =>
      cases rest with
      | nil => rw [hdw] at htb; cases htb
      | cons b r2 =>
        rw [hdw] at htb
        have htb2 : (decide (a = '#') && isPyWs b) = true := htb
        have ha : a = '#' := by
          cases hdec : decide (a = '#') with
          | true => exact of_decide_eq_true hdec
          | false => rw [hdec] at htb2; simp at htb2
        have hmem : a ∈ unwrap_single_fence (pyStripL text.data) := by
          refine (List.dropWhile_sublist isPyWs).subset ?_
          rw [hdw]
          exact List.mem_cons_self a _
        have hne := pyStripL_ne_nil hmem (by rw [ha]; decide)
        rw [if_pos htbKeep]
        show (pyStripL (unwrap_single_fence (pyStripL text.data))).isEmpty = false
        cases hq : pyStripL (unwrap_single_fence (pyStripL text.data)) with
        | nil => exact absurd hq hne
        | cons x xs => rfl
  | false =>
    have hmem : '#' ∈
        (("# " ++ pathStr p ++ "\n\n") : String).data ++
          unwrap_single_fence (pyStripL text.data) := by
      apply List.mem_append.mpr
      left
      rw [String.data_append, String.data_append]
      apply List.mem_append.mpr
      left
      apply List.mem_append.mpr
      left
      decide
    have hne := pyStripL_ne_nil hmem (by decide)
    rw [if_neg (by simp [htb])]
    show (pyStripL ((("# " ++ pathStr p ++ "\n\n") : String).data ++
      unwrap_single_fence (pyStripL text.data))).isEmpty = false
    cases hq : pyStripL ((("# " ++ pathStr p ++ "\n\n") : String).data ++
        unwrap_single_fence (pyStripL text.data)) with
    | nil => exact absurd hq hne
    | cons x xs => rfl

/-- Claim C10: post-processing always yields text with non-whitespace
content (a present or synthesised heading), so the
`LLM returned empty documentation content` branch of
`generate_doc_for_file` is unreachable for every response value. -/
theorem c10_empty_generation_unreachable :
    (∀ (text : String) (p : PathM), pyStripS (postprocess_markdown text p) ≠ "") ∧
    (∀ (llm : String → Except String PyVal) (relp : PathM) (source : String)
       (out_dir : PathM) (request : String) (m : Nat),
       generate_doc_for_file llm relp source out_dir request m ≠
         Except.error DocErr.emptyGeneration) := by
  constructor
  · intro text p h
    have hfalse := postprocess_strip_isEmpty_false text p
    unfold pyStripS at h
    have hd : pyStripL (postprocess_markdown text p).data = [] := by
      have h2 := congrArg String.data h
      simpa using h2
    rw [hd] at hfalse
    cases hfalse
  · intro llm relp source out_dir request m h
    unfold generate_doc_for_file at h
    by_cases h1 : (pyStripL source.data).isEmpty = true
    · rw [if_pos h1] at h
      cases h
    · rw [if_neg h1] at h
      cases hllm : llm (renderPrompt relp (sourceForPrompt source m) request) with
      | error e => rw [hllm] at h; cases h
      | ok resp =>
        rw [hllm] at h
        have hne := postprocess_strip_isEmpty_false (extract_text resp) relp
        simp only [hne, Bool.false_eq_true, if_false] at h
        simp at h

/-- Claim C4: response normalization is total by construction
(`extract_text : PyVal → String`); a plain string comes back unchanged
with no model hint; a content-block list yields the block texts joined by
newlines in order; the nested `choices`/`message`/`content` mapping yields
its string through the fuel-bounded dig; and a mapping with no
recognizable text falls back to its non-empty `str()` rendering. -/
theorem c4_response_normalization :
    (∀ s : String, extract_text (PyVal.vstr s) = s ∧
       extract_model_hint (PyVal.vstr s) = none)
    ∧
    (∀ (texts : List String) (rep : String), texts ≠ [] →
      extract_text
          (PyVal.vobj [("content", PyVal.vlist (texts.map mkTextBlock))] rep) =
        joinWith "\n" texts)
    ∧
    (extract_text (PyVal.vdict [("choices", PyVal.vlist
        [PyVal.vdict [("message", PyVal.vdict [("content", PyVal.vstr "hi")])]])]) =
      "hi")
    ∧
    (∀ d : List (String × PyVal),
      directKeyStr d = none →
      digForString 7 (PyVal.vdict d) = none →
      extract_text (PyVal.vdict d) = pyStr (PyVal.vdict d) ∧
      extract_text (PyVal.vdict d) ≠ "") := by
  refine ⟨fun s => ⟨rfl, rfl⟩, ?_, by rfl, ?_⟩
  · intro texts rep hne
    cases texts with
    | nil => exact absurd rfl hne
    | cons p parts =>
      have hfm : ((p :: parts).map mkTextBlock).filterMap textBlock? = p :: parts := by
        clear hne
        induction (p :: parts) with
        | nil => rfl
        | cons a l ih =>
          have hone : textBlock? (mkTextBlock a) = some a := rfl
          simp [List.filterMap_cons, hone, ih]
      have hget : pyGetattr
          (PyVal.vobj [("content", PyVal.vlist ((p :: parts).map mkTextBlock))] rep)
          "content" = some (PyVal.vlist ((p :: parts).map mkTextBlock)) := rfl
      simp only [extract_text, hget, hfm]
  · intro d h1 h2
    have hget : pyGetattr (PyVal.vdict d) "content" = none := rfl
    have heq : extract_text (PyVal.vdict d) = pyStr (PyVal.vdict d) := by
      simp only [extract_text, hget, extractTextLate, h1, h2]
    refine ⟨heq, ?_⟩
    rw [heq]
    intro hemp
    have hps : pyStr (PyVal.vdict d) =
        "\x7b" ++ joinWith ", " (pyReprPairs d) ++ "\x7d" := rfl
    have hlen := congrArg String.length hemp
    have h1l : ("\x7b" : String).length = 1 := rfl
    have h2l : ("\x7d" : String).length = 1 := rfl
    have h0 : ("" : String).length = 0 := rfl
    rw [hps, String.length_append, String.length_append, h1l, h2l, h0] at hlen
    omega

/-- Witness for claim C4: the four cases at concrete responses. -/
theorem c4_response_normalization_witness :
    (extract_text (PyVal.vstr "hello") = "hello" ∧
     extract_model_hint (PyVal.vstr "hello") = none) ∧
    ((["A", "B"] : List String) ≠ [] ∧
     extract_text
         (PyVal.vobj [("content", PyVal.vlist (["A", "B"].map mkTextBlock))] "rep") =
       joinWith "\n" ["A", "B"] ∧
     joinWith "\n" ["A", "B"] = "A\nB") ∧
    (directKeyStr [("foo", PyVal.vint 3)] = none ∧
     digForString 7 (PyVal.vdict [("foo", PyVal.vint 3)]) = none ∧
     extract_text (PyVal.vdict [("foo", PyVal.vint 3)]) ≠ "") := by
  refine ⟨c4_response_normalization.1 "hello", ⟨by simp, ?_, by rfl⟩, ⟨by rfl, by rfl, ?_⟩⟩
  · exact c4_response_normalization.2.1 ["A", "B"] "rep" (by simp)
  · exact (c4_response_normalization.2.2.2 [("foo", PyVal.vint 3)] rfl rfl).2

/-- A read failure anywhere in the per-file loop aborts the whole fold with
that failure, regardless of what was accumulated before. -/
theorem perFileFold_abort {β : Type} (step : β → PathM → String → β)
    (fs : ReadOnlySandboxFS) (fsys : FileSys) :
    ∀ (pre : List PathM) (f : PathM) (post : List PathM) (e : FSError) (init : β),
      (∀ q ∈ pre, ∃ s, read_text fs fsys q 2000000 = Except.ok s) →
      read_text fs fsys f 2000000 = Except.error e →
      perFileFold step fs fsys (pre ++ f :: post) init =
        Except.error (RunErr.fs e) := by
  intro pre
  induction pre with
  | nil =>
    intro f post e init _ hf
    simp only [List.nil_append]
    unfold perFileFold
    rw [List.foldlM_cons, hf]
    rfl
  | cons q pre ih =>
    intro f post e init hpre hf
    obtain ⟨s, hs⟩ := hpre q (List.mem_cons_self q pre)
    have hrest : ∀ r ∈ pre, ∃ s2, read_text fs fsys r 2000000 = Except.ok s2 :=
      fun r hr => hpre r (List.mem_cons_of_mem q hr)
    rw [List.cons_append]
    unfold perFileFold
    rw [List.foldlM_cons, hs]
    show (Except.ok (step init q s) >>= fun b =>
      List.foldlM _ b (pre ++ f :: post)) = Except.error (RunErr.fs e)
    exact ih f post e (step init q s) hrest hf

/-- Counterexample to claim C3: with an oversized first file, the
`CheckHeaders` and `ScanSecrets` stages abort with the read failure
instead of recording it and processing the remaining readable file. -/
theorem c3_read_failure_counterexample :
    node_check_headers normalizeAbs fsysC3 stC3 =
      Except.error (RunErr.fs (FSError.sizeLimitExceeded 3000000 bigPy)) ∧
    node_scan_secrets (fun _ => []) normalizeAbs fsysC3 stC3 =
      Except.error (RunErr.fs (FSError.sizeLimitExceeded 3000000 bigPy)) := by
  exact ⟨rfl, rfl⟩

/-- Claim C3 as amended: a per-file read failure (missing file or size
limit) is not isolated — the first failing file aborts the whole
`CheckHeaders` / `ScanSecrets` stage with that failure, no stage-level
issue is recorded, and the files after it are not processed. -/
theorem c3_read_failure_aborts_stage :
    ∀ (os : PathM → PathM) (fsys : FileSys)
      (scanner : String → List SecretFinding) (st : AgentState)
      (pre : List PathM) (f : PathM) (post : List PathM) (e : FSError),
      st.file_list = pre ++ f :: post →
      (∀ q ∈ pre, ∃ s, read_text ⟨st.root_dir, os⟩ fsys q 2000000 = Except.ok s) →
      read_text ⟨st.root_dir, os⟩ fsys f 2000000 = Except.error e →
      node_check_headers os fsys st = Except.error (RunErr.fs e) ∧
      node_scan_secrets scanner os fsys st = Except.error (RunErr.fs e) := by
  intro os fsys scanner st pre f post e hlist hpre hf
  constructor
  · unfold node_check_headers
    rw [hlist, perFileFold_abort stepHeader ⟨st.root_dir, os⟩ fsys pre f post e [] hpre hf]
  · unfold node_scan_secrets
    rw [hlist, perFileFold_abort (stepSecrets scanner) ⟨st.root_dir, os⟩ fsys pre f post e [] hpre hf]

/-- Witness for the amended claim C3: the readable file is read first, then
the oversized file aborts both stages. -/
theorem c3_read_failure_aborts_stage_witness :
    (stC3w.file_list = [(⟨false, ["ok.py"]⟩ : PathM)] ++
      (⟨false, ["big.py"]⟩ : PathM) :: []) ∧
    read_text ⟨stC3w.root_dir, normalizeAbs⟩ fsysC3 ⟨false, ["ok.py"]⟩ 2000000 =
      Except.ok sGood ∧
    read_text ⟨stC3w.root_dir, normalizeAbs⟩ fsysC3 ⟨false, ["big.py"]⟩ 2000000 =
      Except.error (FSError.sizeLimitExceeded 3000000 bigPy) ∧
    node_check_headers normalizeAbs fsysC3 stC3w =
      Except.error (RunErr.fs (FSError.sizeLimitExceeded 3000000 bigPy)) ∧
    node_scan_secrets (fun _ => []) normalizeAbs fsysC3 stC3w =
      Except.error (RunErr.fs (FSError.sizeLimitExceeded 3000000 bigPy)) := by
  have h := c3_read_failure_aborts_stage normalizeAbs fsysC3 (fun _ => []) stC3w
    [⟨false, ["ok.py"]⟩] ⟨false, ["big.py"]⟩ []
    (FSError.sizeLimitExceeded 3000000 bigPy)
    (by rfl)
    (by
      intro q hq
      simp only [List.mem_singleton] at hq
      subst hq
      exact ⟨sGood, by rfl⟩)
    (by rfl)
  exact ⟨rfl, by rfl, by rfl, h.1, h.2⟩

/-- Strings with equal character data are equal. -/
theorem stringDataInj {a b : String} (h : a.data = b.data) : a = b := by
  cases a
  cases b
  simp only at h
  rw [h]

/-- Right cancellation for list append. -/
theorem append_right_cancel_list {α : Type} {a b t : List α}
    (h : a ++ t = b ++ t) : a = b := by
  have hlen : a.length = b.length := by
    have h2 := congrArg List.length h
    simp only [List.length_append] at h2
    omega
  calc a = (a ++ t).take a.length := (List.take_left a t).symm
    _ = (b ++ t).take b.length := by rw [h, hlen]
    _ = b := List.take_left b t

/-- Left cancellation for list append. -/
theorem append_left_cancel_list {α : Type} {t a b : List α}
    (h : t ++ a = t ++ b) : a = b := by
  have h2 := congrArg (List.drop t.length) h
  simpa [List.drop_left] using h2

/-- `takeWhile` with a no-underscore predicate stops exactly at the first
separator character. -/
theorem takeWhile_append_stop {a : List Char} (r : List Char)
    (ha : ∀ c ∈ a, c ≠ '_') :
    (a ++ '_' :: r).takeWhile (fun c => c ≠ '_') = a := by
  induction a with
  | nil =>
    show (('_' :: r).takeWhile (fun c => c ≠ '_')) = []
    rw [List.takeWhile_cons]
    simp
  | cons x a ih =>
    have hx : x ≠ '_' := ha x (List.mem_cons_self x a)
    have iha := ih (fun c hc => ha c (List.mem_cons_of_mem x hc))
    rw [List.cons_append, List.takeWhile_cons, decide_eq_true hx]
    simp only [if_true]
    rw [iha]

/-- Character data of the output filename of a multi-component path. -/
theorem safe_cons_cons_data (a b : String) (l : List String) :
    (safe_doc_filename (a :: b :: l)).data =
      a.data ++ '_' :: '_' :: (safe_doc_filename (b :: l)).data := by
  show ((a ++ "__" ++ joinWith "__" (b :: l)) ++ ".md").data = _
  rw [String.data_append, String.data_append, String.data_append]
  show (a.data ++ ['_', '_'] ++ (joinWith "__" (b :: l)).data) ++ ".md".data = _
  rw [show (safe_doc_filename (b :: l)).data =
    (joinWith "__" (b :: l)).data ++ ".md".data from String.data_append _ _]
  simp [List.append_assoc]

/-- Character data of the output filename of a single-component path. -/
theorem safe_single_data (a : String) :
    (safe_doc_filename [a]).data = a.data ++ ".md".data := by
  show ((joinWith "__" [a]) ++ ".md").data = _
  rw [show joinWith "__" [a] = a from rfl, String.data_append]

/-- Single-component filenames of underscore-free parts contain no
underscore at all. -/
theorem no_underscore_single (a : String) (ha : ∀ c ∈ a.data, c ≠ '_') :
    '_' ∉ (safe_doc_filename [a]).data := by
  rw [safe_single_data]
  intro hmem
  rcases List.mem_append.mp hmem with h | h
  · exact ha '_' h rfl
  · exact absurd h (by decide)

/-- Multi-component filenames always contain their separator underscore. -/
theorem underscore_mem_cons_cons (a b : String) (l : List String) :
    '_' ∈ (safe_doc_filename (a :: b :: l)).data := by
  rw [safe_cons_cons_data]
  exact List.mem_append.mpr (Or.inr (List.mem_cons_self '_' _))

/-- Unpacking the component conditions. -/
theorem underscoreFreeParts_head {s : String} {l : List String}
    (h : underscoreFreeParts (s :: l) = true) :
    s.data ≠ [] ∧ (∀ c ∈ s.data, c ≠ '_') ∧ underscoreFreeParts l = true := by
  unfold underscoreFreeParts at h ⊢
  simp only [List.all_cons, Bool.and_eq_true] at h
  obtain ⟨⟨h1, h2⟩, h3⟩ := h
  refine ⟨?_, ?_, h3⟩
  · intro h0
    rw [h0] at h1
    cases h1
  · intro c hc
    exact of_decide_eq_true (List.all_eq_true.mp h2 c hc)

/-- The flat output naming is injective on non-empty, underscore-free
components. -/
theorem safe_doc_filename_inj :
    ∀ (ps qs : List String), ps ≠ [] → qs ≠ [] →
      underscoreFreeParts ps = true →
      underscoreFreeParts qs = true →
      safe_doc_filename ps = safe_doc_filename qs →
      ps = qs := by
  intro ps
  induction ps with
  | nil => intro qs h0 _ _ _ _; exact absurd rfl h0
  | cons x ps ih =>
    intro qs _ hqne hp hq heq
    cases qs with
    | nil => exact absurd rfl hqne
    | cons y qs =>
      cases ps with
      | nil =>
        cases qs with
        | nil =>
          have hd := congrArg String.data heq
          rw [safe_single_data, safe_single_data] at hd
          rw [stringDataInj (append_right_cancel_list hd)]
        | cons y2 ys =>
          exfalso
          obtain ⟨_, hxfree, _⟩ := underscoreFreeParts_head hp
          have hmem := underscore_mem_cons_cons y y2 ys
          rw [← heq] at hmem
          exact no_underscore_single x hxfree hmem
      | cons x2 xs =>
        cases qs with
        | nil =>
          exfalso
          obtain ⟨_, hyfree, _⟩ := underscoreFreeParts_head hq
          have hmem := underscore_mem_cons_cons x x2 xs
          rw [heq] at hmem
          exact no_underscore_single y hyfree hmem
        | cons y2 ys =>
          obtain ⟨hxne, hxfree, hpx⟩ := underscoreFreeParts_head hp
          obtain ⟨hyne, hyfree, hqy⟩ := underscoreFreeParts_head hq
          have hd := congrArg String.data heq
          rw [safe_cons_cons_data, safe_cons_cons_data] at hd
          have htw := congrArg (List.takeWhile (fun c => c ≠ '_')) hd
          rw [takeWhile_append_stop _ hxfree, takeWhile_append_stop _ hyfree] at htw
          have hxeq : x = y := stringDataInj htw
          have hdrop : safe_doc_filename (x2 :: xs) = safe_doc_filename (y2 :: ys) := by
            rw [htw] at hd
            have h3 := append_left_cancel_list hd
            injection h3 with _ h4
            injection h4 with _ h5
            exact stringDataInj h5
          rw [hxeq, ih (y2 :: ys) (by simp) (by simp) hpx hqy hdrop]

/-- The head surviving a `dropWhile` fails the predicate. -/
theorem dropWhile_head_false {p : Char → Bool} :
    ∀ (l : List Char) (a : Char) (t : List Char),
      l.dropWhile p = a :: t → p a = false := by
  intro l
  induction l with
  | nil => intro a t h; exact absurd h (by simp)
  | cons c r ih =>
    intro a t h
    rw [List.dropWhile_cons] at h
    by_cases hp : p c = true
    · rw [if_pos hp] at h
      exact ih a t h
    · rw [if_neg hp] at h
      injection h with h1 _
      cases hpc : p c with
      | false => rw [← h1]; exact hpc
      | true => exact absurd hpc hp

/-- `rstrip` output never ends in whitespace. -/
theorem pyRstripL_getLast_not_ws (l : List Char) (c : Char)
    (h : (pyRstripL l).getLast? = some c) : isPyWs c = false := by
  unfold pyRstripL at h
  rw [List.getLast?_reverse] at h
  cases hd : l.reverse.dropWhile isPyWs with
  | nil => rw [hd] at h; cases h
  | cons a t =>
    rw [hd] at h
    have hac : a = c := Option.some.inj h
    rw [← hac]
    exact dropWhile_head_false l.reverse a t hd

/-- Counterexample to claim C8: two distinct relative paths collide in the
flat output namespace when a component itself contains the `__` joiner. -/
theorem c8_filename_counterexample :
    safe_doc_filename ["a__b", "c.py"] = safe_doc_filename ["a", "b", "c.py"] ∧
    (["a__b", "c.py"] : List String) ≠ ["a", "b", "c.py"] := by
  exact ⟨rfl, by decide⟩

/-- Claim C8 as amended: the naming scheme joins components with `__` and
appends `.md`; it is injective on paths whose components are non-empty and
underscore-free (components containing underscores can collide); sibling
two-component paths with the same base name and distinct directories never
collide; and the written file is the post-processed text with exactly one
trailing newline, whose UTF-8 size is the reported byte count. -/
theorem c8_filename_amended :
    (∀ (ps qs : List String), ps ≠ [] → qs ≠ [] →
      underscoreFreeParts ps = true →
      underscoreFreeParts qs = true →
      safe_doc_filename ps = safe_doc_filename qs →
      ps = qs)
    ∧
    (∀ d1 d2 f : String, d1 ≠ d2 →
      safe_doc_filename [d1, f] ≠ safe_doc_filename [d2, f])
    ∧
    (∀ (llm : String → Except String PyVal) (relp : PathM) (source : String)
       (out_dir : PathM) (request : String) (m : Nat)
       (res : DocGenResult) (written : String),
      generate_doc_for_file llm relp source out_dir request m =
        Except.ok (res, written) →
      res.bytes_written = written.utf8ByteSize ∧
      written.data.getLast? = some '\n' ∧
      (∀ c, written.data.dropLast.getLast? = some c → isPyWs c = false)) := by
  refine ⟨safe_doc_filename_inj, ?_, ?_⟩
  · intro d1 d2 f hne heq
    apply hne
    have hd := congrArg String.data heq
    rw [safe_cons_cons_data, safe_cons_cons_data] at hd
    exact stringDataInj (append_right_cancel_list hd)
  · intro llm relp source out_dir request m res written h
    unfold generate_doc_for_file at h
    by_cases h1 : (pyStripL source.data).isEmpty = true
    · rw [if_pos h1] at h
      cases h
    · rw [if_neg h1] at h
      cases hllm : llm (renderPrompt relp (sourceForPrompt source m) request) with
      | error e => rw [hllm] at h; cases h
      | ok resp =>
        rw [hllm] at h
        by_cases h2 : (pyStripL (postprocess_markdown (extract_text resp) relp).data).isEmpty = true
        · simp only [h2, if_true] at h
          cases h
        · have h3 : (if (pyStripL (postprocess_markdown (extract_text resp) relp).data).isEmpty = true
              then (Except.error DocErr.emptyGeneration : Except DocErr (DocGenResult × String))
              else Except.ok
                (⟨out_dir.join ⟨false, [safe_doc_filename relp.segments]⟩,
                  (String.mk (pyRstripL (postprocess_markdown (extract_text resp) relp).data ++ ['\n'])).utf8ByteSize,
                  extract_model_hint resp⟩,
                  String.mk (pyRstripL (postprocess_markdown (extract_text resp) relp).data ++ ['\n'])))
              = Except.ok (res, written) := h
          rw [if_neg h2] at h3
          have h4 := (Except.ok.inj h3).symm
          cases h4
          refine ⟨rfl, ?_, ?_⟩
          · show (pyRstripL (postprocess_markdown (extract_text resp) relp).data ++ ['\n']).getLast? = some '\n'
            exact List.getLast?_concat _
          · intro c hc
            have hdl : (pyRstripL (postprocess_markdown (extract_text resp) relp).data ++ ['\n']).dropLast =
                pyRstripL (postprocess_markdown (extract_text resp) relp).data :=
              List.dropLast_concat ..
            rw [show (String.mk (pyRstripL (postprocess_markdown (extract_text resp) relp).data ++ ['\n'])).data =
              pyRstripL (postprocess_markdown (extract_text resp) relp).data ++ ['\n'] from rfl, hdl] at hc
            exact pyRstripL_getLast_not_ws _ c hc

/-- Witness for the amended claim C8: the three parts at concrete inputs. -/
theorem c8_filename_amended_witness :
    ((["a", "bpy"] : List String) ≠ [] ∧
     underscoreFreeParts ["a", "bpy"] = true ∧
     (["a", "bpy"] : List String) = ["a", "bpy"]) ∧
    (("a" : String) ≠ "b" ∧
     safe_doc_filename ["a", "f.py"] ≠ safe_doc_filename ["b", "f.py"]) ∧
    (generate_doc_for_file llmStub ⟨false, ["m.py"]⟩ "X = 1" outDemo "" 120000 =
       Except.ok (⟨⟨true, ["out", "m.py.md"]⟩, 13, none⟩, "# Doc\n\nBody.\n") ∧
     (13 : Nat) = ("# Doc\n\nBody.\n" : String).utf8ByteSize ∧
     ("# Doc\n\nBody.\n" : String).data.getLast? = some '\n') := by
  have hgen : generate_doc_for_file llmStub ⟨false, ["m.py"]⟩ "X = 1" outDemo "" 120000 =
      Except.ok (⟨⟨true, ["out", "m.py.md"]⟩, 13, none⟩, "# Doc\n\nBody.\n") := by rfl
  have h3 := c8_filename_amended.2.2 llmStub ⟨false, ["m.py"]⟩ "X = 1" outDemo "" 120000
    ⟨⟨true, ["out", "m.py.md"]⟩, 13, none⟩ "# Doc\n\nBody.\n" hgen
  refine ⟨⟨by simp, by decide, ?_⟩, ⟨by decide, ?_⟩, ⟨hgen, h3.1, h3.2.1⟩⟩
  · exact c8_filename_amended.1 ["a", "bpy"] ["a", "bpy"] (by simp) (by simp)
      (by decide) (by decide) rfl
  · exact c8_filename_amended.2.1 "a" "b" "f.py" (by decide)

/-- Membership in the header-issue accumulator: exactly the initial
entries plus the processed files whose header check failed. -/
theorem perFileFold_header_mem (fs : ReadOnlySandboxFS) (fsys : FileSys) :
    ∀ (files : List PathM) (init issues : List (PathM × String)),
      perFileFold stepHeader fs fsys files init = Except.ok issues →
      ∀ rel, (∃ m, (rel, m) ∈ issues) ↔
        ((∃ m, (rel, m) ∈ init) ∨
         (rel ∈ files ∧ ∃ s, read_text fs fsys rel 2000000 = Except.ok s ∧
           (check_header s 40).ok = false)) := by
  intro files
  induction files with
  | nil =>
    intro init issues h rel
    have hinit : issues = init := by
      unfold perFileFold at h
      exact (Except.ok.inj h).symm
    subst hinit
    simp
  | cons a files ih =>
    intro init issues h rel
    unfold perFileFold at h
    rw [List.foldlM_cons] at h
    cases hr : read_text fs fsys a 2000000 with
    | error e => rw [hr] at h; cases h
    | ok s =>
      rw [hr] at h
      have h2 : perFileFold stepHeader fs fsys files (stepHeader init a s) =
          Except.ok issues := h
      rw [ih (stepHeader init a s) issues h2 rel]
      constructor
      · rintro (hin | ⟨hmem, hs⟩)
        · obtain ⟨m, hm⟩ := hin
          unfold stepHeader at hm
          by_cases hok : (check_header s 40).ok = true
          · rw [if_pos hok] at hm
            exact Or.inl ⟨m, hm⟩
          · rw [if_neg hok] at hm
            rcases List.mem_append.mp hm with h3 | h3
            · exact Or.inl ⟨m, h3⟩
            · rw [List.mem_singleton] at h3
              have h5 : rel = a := congrArg Prod.fst h3
              subst h5
              refine Or.inr ⟨List.mem_cons_self _ _, s, hr, ?_⟩
              cases hko : (check_header s 40).ok with
              | false => rfl
              | true => exact absurd hko hok
        · exact Or.inr ⟨List.mem_cons_of_mem a hmem, hs⟩
      · rintro (hin | ⟨hmem, s2, hs2, hfail⟩)
        · obtain ⟨m, hm⟩ := hin
          left
          refine ⟨m, ?_⟩
          unfold stepHeader
          by_cases hok : (check_header s 40).ok = true
          · rw [if_pos hok]; exact hm
          · rw [if_neg hok]; exact List.mem_append.mpr (Or.inl hm)
        · rcases List.mem_cons.mp hmem with h5 | h5
          · subst h5
            rw [hr] at hs2
            have hss : s = s2 := Except.ok.inj hs2
            subst hss
            left
            refine ⟨(check_header s 40).message, ?_⟩
            unfold stepHeader
            rw [if_neg (by simp [hfail])]
            exact List.mem_append.mpr (Or.inr (List.mem_singleton.mpr rfl))
          · exact Or.inr ⟨h5, s2, hs2, hfail⟩

/-- Membership in the docs accumulator: the initial entries plus every
processed file. -/
theorem genDocsFold_mem (llm : String → Except String PyVal)
    (fs : ReadOnlySandboxFS) (fsys : FileSys) (outd : PathM) (req : String) :
    ∀ (files : List PathM) (init docs : List (PathM × PathM)),
      genDocsFold llm fs fsys outd req files init = Except.ok docs →
      ∀ rel, (∃ q, (rel, q) ∈ docs) ↔
        ((∃ q, (rel, q) ∈ init) ∨ rel ∈ files) := by
  intro files
  induction files with
  | nil =>
    intro init docs h rel
    have hinit : docs = init := by
      unfold genDocsFold at h
      exact (Except.ok.inj h).symm
    subst hinit
    simp
  | cons a files ih =>
    intro init docs h rel
    unfold genDocsFold at h
    rw [List.foldlM_cons] at h
    cases hr : read_text fs fsys a 2000000 with
    | error e => rw [hr] at h; cases h
    | ok s =>
      simp only [hr] at h
      cases hg : generate_doc_for_file llm a s outd req 120000 with
      | error e => simp only [hg] at h; cases h
      | ok r =>
        simp only [hg] at h
        have h2 : genDocsFold llm fs fsys outd req files
            (init ++ [(a, r.1.out_path)]) = Except.ok docs := h
        rw [ih (init ++ [(a, r.1.out_path)]) docs h2 rel]
        constructor
        · rintro (hin | hmem)
          · obtain ⟨q, hq⟩ := hin
            rcases List.mem_append.mp hq with h3 | h3
            · exact Or.inl ⟨q, h3⟩
            · rw [List.mem_singleton] at h3
              have h5 : rel = a := congrArg Prod.fst h3
              subst h5
              exact Or.inr (List.mem_cons_self _ _)
          · exact Or.inr (List.mem_cons_of_mem a hmem)
        · rintro (hin | hmem)
          · obtain ⟨q, hq⟩ := hin
            exact Or.inl ⟨q, List.mem_append.mpr (Or.inl hq)⟩
          · rcases List.mem_cons.mp hmem with h5 | h5
            · subst h5
              exact Or.inl ⟨r.1.out_path,
                List.mem_append.mpr (Or.inr (List.mem_singleton.mpr rfl))⟩
            · exact Or.inr h5

/-- Claim C5: after `CheckHeaders` the header-issue mapping holds exactly
the discovered files whose check failed; after `GenerateDocs` every
discovered file (and nothing else) has a docs entry; and the concrete
two-file root (one complete header, one missing `License:`) yields one
header issue and two docs entries. -/
theorem c5_stage_mappings :
    (∀ (os : PathM → PathM) (fsys : FileSys) (st st2 : AgentState),
      node_check_headers os fsys st = Except.ok st2 →
      ∀ rel, (∃ m, (rel, m) ∈ st2.header_issues) ↔
        (rel ∈ st.file_list ∧
         ∃ s, read_text ⟨st.root_dir, os⟩ fsys rel 2000000 = Except.ok s ∧
           (check_header s 40).ok = false))
    ∧
    (∀ (llm : String → Except String PyVal) (os : PathM → PathM)
       (fsys : FileSys) (st st2 : AgentState),
      node_generate_docs llm os fsys st = Except.ok st2 →
      ∀ rel, (∃ q, (rel, q) ∈ st2.docs) ↔ rel ∈ st.file_list)
    ∧
    (c5run.map (fun st => (st.header_issues.map Prod.fst, st.docs.map Prod.fst)) =
      Except.ok ([(⟨false, ["bad.py"]⟩ : PathM)],
        [(⟨false, ["bad.py"]⟩ : PathM), ⟨false, ["good.py"]⟩])) := by
  refine ⟨?_, ?_, by rfl⟩
  · intro os fsys st st2 h rel
    unfold node_check_headers at h
    cases hf : perFileFold stepHeader ⟨st.root_dir, os⟩ fsys st.file_list [] with
    | error e => rw [hf] at h; cases h
    | ok issues =>
      rw [hf] at h
      have hst : st2 = { st with header_issues := issues } := (Except.ok.inj h).symm
      subst hst
      have := perFileFold_header_mem ⟨st.root_dir, os⟩ fsys st.file_list [] issues hf rel
      simp only [List.not_mem_nil, false_and, exists_false, false_or] at this
      exact this
  · intro llm os fsys st st2 h rel
    unfold node_generate_docs at h
    cases hf : genDocsFold llm ⟨st.root_dir, os⟩ fsys st.out_dir st.request
        st.file_list [] with
    | error e => rw [hf] at h; cases h
    | ok docs =>
      rw [hf] at h
      have hst : st2 = { st with docs := docs } := (Except.ok.inj h).symm
      subst hst
      have := genDocsFold_mem llm ⟨st.root_dir, os⟩ fsys st.out_dir st.request
        st.file_list [] docs hf rel
      simp only [List.not_mem_nil, exists_false, false_or] at this
      exact this

/-- Witness for claim C5: both stage characterisations applied to the
concrete two-file root. -/
theorem c5_stage_mappings_witness :
    (node_check_headers normalizeAbs fsysC5 stDisc = Except.ok stHdr ∧
     (∃ m, ((⟨false, ["bad.py"]⟩ : PathM), m) ∈ stHdr.header_issues) ∧
     ¬ (∃ m, ((⟨false, ["good.py"]⟩ : PathM), m) ∈ stHdr.header_issues)) ∧
    (node_generate_docs llmStub normalizeAbs fsysC5 stHdr = Except.ok stDocs ∧
     (∃ q, ((⟨false, ["good.py"]⟩ : PathM), q) ∈ stDocs.docs) ∧
     (∃ q, ((⟨false, ["bad.py"]⟩ : PathM), q) ∈ stDocs.docs)) := by
  have h1 : node_check_headers normalizeAbs fsysC5 stDisc = Except.ok stHdr := by rfl
  have h2 : node_generate_docs llmStub normalizeAbs fsysC5 stHdr = Except.ok stDocs := by rfl
  refine ⟨⟨h1, ?_, ?_⟩, ⟨h2, ?_, ?_⟩⟩
  · exact (c5_stage_mappings.1 normalizeAbs fsysC5 stDisc stHdr h1
      ⟨false, ["bad.py"]⟩).mpr ⟨by decide, sBadLicense, by rfl, by decide⟩
  · intro hgood
    have h3 := (c5_stage_mappings.1 normalizeAbs fsysC5 stDisc stHdr h1
      ⟨false, ["good.py"]⟩).mp hgood
    obtain ⟨_, s, hs, hfail⟩ := h3
    have hss : s = sGood := Except.ok.inj ((by rfl : read_text ⟨stDisc.root_dir, normalizeAbs⟩
      fsysC5 ⟨false, ["good.py"]⟩ 2000000 = Except.ok sGood) ▸ hs).symm
    subst hss
    exact absurd hfail (by decide)
  · exact (c5_stage_mappings.2.1 llmStub normalizeAbs fsysC5 stHdr stDocs h2
      ⟨false, ["good.py"]⟩).mpr (by decide)
  · exact (c5_stage_mappings.2.1 llmStub normalizeAbs fsysC5 stHdr stDocs h2
      ⟨false, ["bad.py"]⟩).mpr (by decide)

/-- `splitLinesCore` never returns the empty list of chunks. -/
theorem splitLinesCore_ne_nil (l : List Char) : splitLinesCore l ≠ [] := by
  cases l with
  | nil => rw [splitLinesCore.eq_1]; simp
  | cons c rest =>
    cases rest with
    | nil =>
      rw [splitLinesCore.eq_3 c [] (fun r2 h => List.noConfusion h)]
      split
      · simp
      · split
        · simp
        · split <;> simp
    | cons d l2 =>
      by_cases hd : d = '\n'
      · subst hd
        rw [splitLinesCore.eq_2]
        split
        · simp
        · split
          · simp
          · split <;> simp
      · rw [splitLinesCore.eq_3 c (d :: l2)
          (fun r2 h => hd (by injection h))]
        split
        · simp
        · split
          · simp
          · split <;> simp

/-- A newline starts a fresh chunk. -/
theorem splitLinesCore_cons_nl (l : List Char) :
    splitLinesCore ('\n' :: l) = [] :: splitLinesCore l := by
  cases l with
  | nil =>
    rw [splitLinesCore.eq_3 '\n' [] (fun r2 h => List.noConfusion h)]
    rw [if_neg (by decide), if_pos (by decide)]
  | cons c l2 =>
    by_cases hc : c = '\n'
    · subst hc
      rw [splitLinesCore.eq_2]
      rw [if_neg (by decide), if_pos (by decide)]
    · rw [splitLinesCore.eq_3 '\n' (c :: l2)
        (fun r2 h => hc (by injection h))]
      rw [if_neg (by decide), if_pos (by decide)]

/-- A non-break character extends the first chunk. -/
theorem splitLinesCore_cons_nobreak (x : Char) (l : List Char)
    (hx : isLineBreakC x = false) (m : List Char) (ms : List (List Char))
    (hl : splitLinesCore l = m :: ms) :
    splitLinesCore (x :: l) = (x :: m) :: ms := by
  have hxr : ¬ x = '\r' := by
    intro h
    subst h
    exact absurd hx (by decide)
  cases l with
  | nil =>
    rw [splitLinesCore.eq_3 x [] (fun r2 h => List.noConfusion h),
      if_neg hxr, if_neg (by simp [hx]), hl]
  | cons d l2 =>
    by_cases hd : d = '\n'
    · subst hd
      rw [splitLinesCore.eq_2, if_neg hxr, if_neg (by simp [hx]), hl]
    · rw [splitLinesCore.eq_3 x (d :: l2)
        (fun r2 h => hd (by injection h)),
        if_neg hxr, if_neg (by simp [hx]), hl]

/-- Splitting a break-free run followed by an explicit newline isolates the
run as the first chunk. -/
theorem splitLinesCore_append_nl :
    ∀ (a : List Char), (∀ c ∈ a, isLineBreakC c = false) →
      ∀ rest, splitLinesCore (a ++ '\n' :: rest) = a :: splitLinesCore rest := by
  intro a
  induction a with
  | nil =>
    intro _ rest
    exact splitLinesCore_cons_nl rest
  | cons x a ih =>
    intro ha rest
    have hx : isLineBreakC x = false := ha x (List.mem_cons_self x a)
    have iha := ih (fun c hc => ha c (List.mem_cons_of_mem x hc)) rest
    show splitLinesCore (x :: (a ++ '\n' :: rest)) = (x :: a) :: splitLinesCore rest
    cases hci : splitLinesCore (a ++ '\n' :: rest) with
    | nil => exact absurd hci (splitLinesCore_ne_nil _)
    | cons m ms =>
      rw [splitLinesCore_cons_nobreak x _ hx m ms hci]
      rw [hci] at iha
      injection iha with h1 h2
      rw [h1, h2]

/-- Splitting distributes over an internal newline when the left part
breaks only at newlines. -/
theorem splitLinesCore_nl_append :
    ∀ (i : List Char), (∀ c ∈ i, c = '\n' ∨ isLineBreakC c = false) →
      ∀ t, splitLinesCore (i ++ '\n' :: t) =
        splitLinesCore i ++ splitLinesCore t := by
  intro i
  induction i with
  | nil =>
    intro _ t
    show splitLinesCore ('\n' :: t) = splitLinesCore [] ++ splitLinesCore t
    rw [splitLinesCore_cons_nl]
    rfl
  | cons x i ih =>
    intro hi t
    have ihx := ih (fun c hc => hi c (List.mem_cons_of_mem x hc)) t
    rcases hi x (List.mem_cons_self x i) with hx | hx
    · subst hx
      show splitLinesCore ('\n' :: (i ++ '\n' :: t)) =
        splitLinesCore ('\n' :: i) ++ splitLinesCore t
      rw [splitLinesCore_cons_nl, splitLinesCore_cons_nl, ihx]
      rfl
    · show splitLinesCore (x :: (i ++ '\n' :: t)) =
        splitLinesCore (x :: i) ++ splitLinesCore t
      cases hci : splitLinesCore i with
      | nil => exact absurd hci (splitLinesCore_ne_nil i)
      | cons m ms =>
        rw [splitLinesCore_cons_nobreak x i hx m ms hci]
        have hci2 : splitLinesCore (i ++ '\n' :: t) = m :: (ms ++ splitLinesCore t) := by
          rw [ihx, hci]
          rfl
        rw [splitLinesCore_cons_nobreak x _ hx m (ms ++ splitLinesCore t) hci2]
        rfl

/-- Joining the chunks of a newline-only text restores it. -/
theorem joinNL_splitLinesCore :
    ∀ (i : List Char), (∀ c ∈ i, c = '\n' ∨ isLineBreakC c = false) →
      joinNL (splitLinesCore i) = i := by
  intro i
  induction i with
  | nil => intro _; rfl
  | cons x i ih =>
    intro hi
    have ihx := ih (fun c hc => hi c (List.mem_cons_of_mem x hc))
    rcases hi x (List.mem_cons_self x i) with hx | hx
    · subst hx
      rw [splitLinesCore_cons_nl]
      cases hci : splitLinesCore i with
      | nil => exact absurd hci (splitLinesCore_ne_nil i)
      | cons m ms =>
        rw [hci] at ihx
        show '\n' :: joinNL (m :: ms) = '\n' :: i
        rw [ihx]
    · cases hci : splitLinesCore i with
      | nil => exact absurd hci (splitLinesCore_ne_nil i)
      | cons m ms =>
        rw [splitLinesCore_cons_nobreak x i hx m ms hci]
        rw [hci] at ihx
        cases ms with
        | nil =>
          show x :: m = x :: i
          rw [show joinNL [m] = m from rfl] at ihx
          rw [ihx]
        | cons n ns =>
          show (x :: m) ++ '\n' :: joinNL (n :: ns) = x :: i
          rw [← ihx]
          rfl

/-- Stripping is the identity when both edges are non-whitespace. -/
theorem pyStripL_of_edges (l : List Char) (c1 c2 : Char)
    (h1 : l.head? = some c1) (hw1 : isPyWs c1 = false)
    (h2 : l.getLast? = some c2) (hw2 : isPyWs c2 = false) :
    pyStripL l = l := by
  unfold pyStripL
  have hd1 : l.dropWhile isPyWs = l := by
    cases l with
    | nil => rfl
    | cons a t =>
      have ha : a = c1 := Option.some.inj h1
      rw [List.dropWhile_cons, if_neg (by simp [ha, hw1])]
  rw [hd1]
  have hd2 : l.reverse.dropWhile isPyWs = l.reverse := by
    cases hr : l.reverse with
    | nil => rfl
    | cons a t =>
      have hh : l.reverse.head? = some a := by rw [hr]; rfl
      rw [List.head?_reverse] at hh
      have ha : a = c2 := by
        rw [h2] at hh
        exact (Option.some.inj hh).symm
      rw [List.dropWhile_cons, if_neg (by simp [ha, hw2])]
  rw [hd2, List.reverse_reverse]

/-- The last chunk of the fenced line list. -/
theorem fence_lines_getLast (x : List Char) (l : List (List Char)) (y : List Char) :
    (x :: (l ++ [y])).getLast? = some y := by
  rw [show x :: (l ++ [y]) = (x :: l) ++ [y] from rfl]
  exact List.getLast?_concat _

/-- Unwrapping a text that is exactly one fence line, a newline-only
interior, and a closing fence line yields the stripped interior. -/
theorem unwrap_wrapped (tag interior : String)
    (htag : ∀ c ∈ tag.data, isLineBreakC c = false)
    (hint : ∀ c ∈ interior.data, c = '\n' ∨ isLineBreakC c = false) :
    unwrap_single_fence
      (('`' :: '`' :: '`' :: tag.data) ++
        '\n' :: (interior.data ++ '\n' :: ['`', '`', '`'])) =
      pyStripL interior.data := by
  have hA_nb : ∀ c ∈ ('`' :: '`' :: '`' :: tag.data), isLineBreakC c = false := by
    intro c hc
    rcases List.mem_cons.mp hc with rfl | hc
    · decide
    rcases List.mem_cons.mp hc with rfl | hc
    · decide
    rcases List.mem_cons.mp hc with rfl | hc
    · decide
    exact htag c hc
  have hcore : splitLinesCore (('`' :: '`' :: '`' :: tag.data) ++
      '\n' :: (interior.data ++ '\n' :: ['`', '`', '`'])) =
      ('`' :: '`' :: '`' :: tag.data) ::
        (splitLinesCore interior.data ++ [['`', '`', '`']]) := by
    rw [splitLinesCore_append_nl _ hA_nb, splitLinesCore_nl_append _ hint]
    rfl
  have hlines : splitLinesC (('`' :: '`' :: '`' :: tag.data) ++
      '\n' :: (interior.data ++ '\n' :: ['`', '`', '`'])) =
      ('`' :: '`' :: '`' :: tag.data) ::
        (splitLinesCore interior.data ++ [['`', '`', '`']]) := by
    unfold splitLinesC
    rw [hcore]
    rw [if_neg (by rw [fence_lines_getLast]; simp)]
  have hpre : "```".data.isPrefixOf (('`' :: '`' :: '`' :: tag.data) ++
      '\n' :: (interior.data ++ '\n' :: ['`', '`', '`'])) = true := by
    refine List.isPrefixOf_iff_prefix.mpr
      ⟨tag.data ++ '\n' :: (interior.data ++ '\n' :: ['`', '`', '`']), ?_⟩
    simp
  have hsuf : "```".data.isSuffixOf (('`' :: '`' :: '`' :: tag.data) ++
      '\n' :: (interior.data ++ '\n' :: ['`', '`', '`'])) = true := by
    refine List.isSuffixOf_iff_suffix.mpr
      ⟨('`' :: '`' :: '`' :: tag.data) ++ '\n' :: (interior.data ++ ['\n']), ?_⟩
    simp
  have h3 : 3 ≤ (('`' :: '`' :: '`' :: tag.data) ::
      (splitLinesCore interior.data ++ [['`', '`', '`']])).length := by
    have hpos := List.length_pos.mpr (splitLinesCore_ne_nil interior.data)
    simp only [List.length_cons, List.length_append, List.length_singleton]
    omega
  unfold unwrap_single_fence
  rw [if_pos (by rw [hpre, hsuf]; rfl)]
  rw [hlines]
  rw [if_pos ?hcnd]
  case hcnd =>
    have hpf : "```".data.isPrefixOf ('`' :: '`' :: '`' :: tag.data) = true :=
      List.isPrefixOf_iff_prefix.mpr ⟨tag.data, rfl⟩
    rw [decide_eq_true h3,
      show (match (('`' :: '`' :: '`' :: tag.data) ::
          (splitLinesCore interior.data ++ [['`', '`', '`']])).head? with
        | some l0 => "```".data.isPrefixOf l0
        | none => false) =
          "```".data.isPrefixOf ('`' :: '`' :: '`' :: tag.data) from rfl,
      hpf,
      fence_lines_getLast ('`' :: '`' :: '`' :: tag.data)
        (splitLinesCore interior.data) ['`', '`', '`']]
    rfl
  rw [show ((('`' :: '`' :: '`' :: tag.data) ::
      (splitLinesCore interior.data ++ [['`', '`', '`']])).drop 1) =
      splitLinesCore interior.data ++ [['`', '`', '`']] from rfl]
  rw [List.dropLast_concat]
  rw [joinNL_splitLinesCore interior.data hint]

/-- C7: post-processing of the normalized text. If the whole text is one
fenced block (a leading fence line `` ```tag ``, a newline-only interior,
and a closing ``` line), exactly that wrapping is stripped and the interior
kept, then a title synthesised from the relative path is prepended unless
the stripped interior already starts with a top-level heading marker.
In particular the response fence/`# Title`/`body`/fence yields
`# Title\nbody`, which begins with `# Title`. -/
theorem c7_postprocess_fence :
    (∀ (tag interior : String) (p : PathM),
      (∀ c ∈ tag.data, isLineBreakC c = false) →
      (∀ c ∈ interior.data, c = '\n' ∨ isLineBreakC c = false) →
      postprocess_markdown ("```" ++ tag ++ "\n" ++ interior ++ "\n```") p =
        (if titleStartB (pyStripL interior.data) then
          String.mk (pyStripL interior.data)
         else
          String.mk (("# " ++ pathStr p ++ "\n\n").data ++ pyStripL interior.data))) ∧
    postprocess_markdown "```\n# Title\nbody\n```" ⟨false, ["pkg", "mod.py"]⟩ =
      "# Title\nbody" ∧
    "# Title".data.isPrefixOf
      (postprocess_markdown "```\n# Title\nbody\n```"
        ⟨false, ["pkg", "mod.py"]⟩).data = true := by
  refine ⟨?_, by decide, by decide⟩
  intro tag interior p htag hint
  have hwd : ("```" ++ tag ++ "\n" ++ interior ++ "\n```").data =
      ('`' :: '`' :: '`' :: tag.data) ++
        '\n' :: (interior.data ++ '\n' :: ['`', '`', '`']) := by
    simp only [String.data_append, List.append_assoc]
    rfl
  have hgl : (('`' :: '`' :: '`' :: tag.data) ++
      '\n' :: (interior.data ++ '\n' :: ['`', '`', '`'])).getLast? = some '`' := by
    rw [show ('`' :: '`' :: '`' :: tag.data) ++
        '\n' :: (interior.data ++ '\n' :: ['`', '`', '`']) =
        (('`' :: '`' :: '`' :: tag.data) ++
          '\n' :: (interior.data ++ ['\n', '`', '`'])) ++ ['`'] from by simp]
    exact List.getLast?_concat _
  have hstrip : pyStripL (('`' :: '`' :: '`' :: tag.data) ++
      '\n' :: (interior.data ++ '\n' :: ['`', '`', '`'])) =
      ('`' :: '`' :: '`' :: tag.data) ++
        '\n' :: (interior.data ++ '\n' :: ['`', '`', '`']) :=
    pyStripL_of_edges _ '`' '`' rfl (by decide) hgl (by decide)
  simp only [postprocess_markdown]
  rw [hwd, hstrip, unwrap_wrapped tag interior htag hint]

/-- Witness for C7: the general fence-unwrapping law at a concrete tagged
fence, interior and path. -/
theorem c7_postprocess_fence_witness :
    postprocess_markdown ("```" ++ "py" ++ "\n" ++ "hello" ++ "\n```")
      ⟨false, ["a.py"]⟩ =
      (if titleStartB (pyStripL "hello".data) then
        String.mk (pyStripL "hello".data)
       else
        String.mk (("# " ++ pathStr ⟨false, ["a.py"]⟩ ++ "\n\n").data ++
          pyStripL "hello".data)) :=
  c7_postprocess_fence.1 "py" "hello" ⟨false, ["a.py"]⟩ (by decide) (by decide)
